import Mathlib

/-!
Model of the wide-to-long conversion engine of `wide2long/core.py` and of the
mapping loader `load_mapping`, with theorems about their behaviour.

Conventions of the embedding:
* a pandas `DataFrame` is a column-name list plus rows of cells; a cell is
  `Option α` where `none` models a missing value (`NaN`);
* Python dicts are insertion-ordered association lists with unique keys;
  `dictInsert` models `d[k] = v` (update in place keeps the position, new keys
  are appended);
* fallible functions return `Except String`, the message mirroring the Python
  exception text;
* the pandas calls `rename`, `melt` and `pivot_table(aggfunc="first")` are
  modelled by `renameCols`, `meltRows` and `pivotFirst` following the pandas
  semantics with their default arguments: `melt` selects the id and value
  columns by label (all positions of a duplicated label), `pivot_table` groups
  with `sort=True` (group keys sorted lexicographically), `dropna=True` (rows
  whose aggregate is missing and all-missing columns are dropped, rows with a
  missing group key are dropped) and aggregates each group by its first
  non-missing value.
-/

deriving instance DecidableEq for Except

namespace Wide2Long

/-- One mapping target: `(element_id, variable_col)`. -/
abbrev Target := String × String

/-- One association of a wide column to a target, an item of a `ColMap` dict. -/
abbrev Entry := String × Target

/-- The merged `colmap` dict of `convert`: source column to target. -/
abbrev ColMap := List Entry

/-- Lookup in an insertion-ordered dict (first matching key). -/
def lookupA : List (String × β) → String → Option β
  | [], _ => none
  | p :: rest, k => if p.1 = k then some p.2 else lookupA rest k

/-- Python `d[k] = v`: replace in place if the key exists, else append. -/
def dictInsert (cm : List (String × β)) (k : String) (v : β) : List (String × β) :=
  if cm.any (fun p => p.1 = k) then
    cm.map (fun p => if p.1 = k then (k, v) else p)
  else cm ++ [(k, v)]

/-- Python `repr` of a string (quotes it). -/
def pyQuote (s : String) : String := "\x27" ++ s ++ "\x27"

/-- Python `repr` of a 2-tuple of strings. -/
def pairRepr (t : Target) : String :=
  "(" ++ pyQuote t.1 ++ ", " ++ pyQuote t.2 ++ ")"

/-- Comma-space join, as in Python list rendering. -/
def joinComma : List String → String
  | [] => ""
  | [s] => s
  | s :: r :: rest => s ++ ", " ++ joinComma (r :: rest)

/-- Python `repr` of a list of strings. -/
def pyListRepr (l : List String) : String := "[" ++ joinComma (l.map pyQuote) ++ "]"

/-- Message of the `ValueError` raised on a mapping conflict (core.py line 40). -/
def conflictMsg (k : String) (v0 v : Target) : String :=
  "Column " ++ pyQuote k ++ " was mapped to different targets: "
    ++ pairRepr v0 ++ " vs " ++ pairRepr v ++ "."

/-- Message of the `ValueError` raised on an empty merged mapping (line 43). -/
def emptyMsg : String := "No columns were selected."

/-- Message of the `KeyError` for selected columns absent from the data (line 49). -/
def missingColsMsg (missing : List String) : String :=
  "Selected columns not in DataFrame: " ++ pyListRepr missing ++ "."

/-- Message of the `KeyError` for an id column absent from the data (line 52). -/
def missingIdMsg (c : String) : String :=
  "id column " ++ pyQuote c ++ " not in DataFrame."

/-- One step of the merge loop of `convert` (lines 37-41): conflict check in
validated mode, then `colmap[k] = v`. -/
def mergeStep (validate : Bool) (acc : Except String ColMap) (kv : Entry) :
    Except String ColMap :=
  match acc with
  | .error e => .error e
  | .ok cm =>
    match lookupA cm kv.1 with
    | some v0 =>
      if validate = true ∧ v0 ≠ kv.2 then .error (conflictMsg kv.1 v0 kv.2)
      else .ok (dictInsert cm kv.1 kv.2)
    | none => .ok (dictInsert cm kv.1 kv.2)

/-- The merge loop of `convert` (lines 36-41): fold every item of every
partial mapping into one `colmap`. -/
def mergeColmap (validate : Bool) (mapping : List (List Entry)) :
    Except String ColMap :=
  mapping.foldl (fun acc m => m.foldl (mergeStep validate) acc) (.ok [])

/-- A wide input table: column names plus rows of cells (`none` = missing). -/
structure DF (α : Type) where
  cols : List String
  rows : List (List (Option α))
deriving DecidableEq

/-- The long output table: identifier columns, the variable columns, and one
row per `(identifier tuple, element)` group; a row holds the identifier
values, the element label, and the cells aligned with `varCols`. -/
structure LongDF (α : Type) where
  idCols : List String
  varCols : List String
  rows : List (List α × String × List (Option α))
deriving DecidableEq

/-- The full column list of the output frame, as pandas would show it. -/
def LongDF.allCols (o : LongDF α) : List String :=
  o.idCols ++ ["element"] ++ o.varCols

/-- First element of a list that is not a member of `cols` (the id-column
loop of lines 50-52 raises at the first absent id column). -/
def firstNotIn (cols : List String) : List String → Option String
  | [] => none
  | c :: rest => if c ∈ cols then firstNotIn cols rest else some c

/-- The sanity-check block of `convert` (lines 45-52). -/
def sanityChecks (df : DF α) (idCols : List String) (cm : ColMap)
    (validate : Bool) : Except String Unit :=
  if validate then
    let missing := (cm.map (fun p => p.1)).filter (fun c => decide (c ∉ df.cols))
    if missing ≠ [] then .error (missingColsMsg missing)
    else
      match firstNotIn df.cols idCols with
      | some c => .error (missingIdMsg c)
      | none => .ok ()
  else .ok ()

/-- Strict lexicographic comparison of lists (Python tuple and string order). -/
def listLtB [LinearOrder α] : List α → List α → Bool
  | [], [] => false
  | [], _ :: _ => true
  | _ :: _, [] => false
  | a :: as, b :: bs =>
    if a < b then true else if a = b then listLtB as bs else false

/-- Non-strict lexicographic comparison of lists. -/
def listLeB [LinearOrder α] : List α → List α → Bool
  | [], _ => true
  | _ :: _, [] => false
  | a :: as, b :: bs =>
    if a < b then true else if a = b then listLeB as bs else false

/-- Strict string comparison (lexicographic on characters, as in Python). -/
def strLtB (s t : String) : Bool := listLtB s.data t.data

/-- Non-strict string comparison. -/
def strLeB (s t : String) : Bool := listLeB s.data t.data

/-- A group key of the `pivot_table` call: identifier values, element, variable. -/
abbrev PKey (α : Type) := List α × String × String

/-- A row key of the output: identifier values and element. -/
abbrev RKey (α : Type) := List α × String

/-- Non-strict lexicographic order on group keys, matching how
`groupby(sort=True)` orders key tuples. -/
def pkeyLeB [LinearOrder α] (k k' : PKey α) : Bool :=
  if listLtB k.1 k'.1 then true
  else if k.1 = k'.1 then
    if strLtB k.2.1 k'.2.1 then true
    else if k.2.1 = k'.2.1 then strLeB k.2.2 k'.2.2
    else false
  else false

/-- Non-strict lexicographic order on output row keys. -/
def rkeyLeB [LinearOrder α] (k k' : RKey α) : Bool :=
  if listLtB k.1 k'.1 then true
  else if k.1 = k'.1 then strLeB k.2 k'.2
  else false

/-- Strict lexicographic order on output row keys. -/
def rkeyLtB [LinearOrder α] (k k' : RKey α) : Bool :=
  if listLtB k.1 k'.1 then true
  else if k.1 = k'.1 then strLtB k.2 k'.2
  else false

/-- First-occurrence deduplication, with an accumulator of seen elements. -/
def dedupFGo [DecidableEq β] (seen : List β) : List β → List β
  | [] => []
  | x :: xs => if x ∈ seen then dedupFGo seen xs else x :: dedupFGo (x :: seen) xs

/-- First-occurrence deduplication (the order pandas keeps unique labels in). -/
def dedupF [DecidableEq β] (l : List β) : List β := dedupFGo [] l

/-- The helper column name of a target (core.py line 55):
`__H__{element}|{variable}` written with explicit concatenation. -/
def helperName (e v : String) : String := "__H__" ++ e ++ "|" ++ v

/-- The `helper_map` dict of `convert` (line 55): source column to helper name. -/
def helperMapOf (cm : ColMap) : List (String × String) :=
  cm.map (fun p => (p.1, helperName p.2.1 p.2.2))

/-- The `value_vars` of the melt call: `list(helper_map.values())` (line 61). -/
def valueVarsOf (cm : ColMap) : List String :=
  (helperMapOf cm).map (fun p => p.2)

/-- The effect of `df.rename(columns=helper_map)` on the column list (line 56):
only labels that are keys of the dict are replaced. -/
def renameCols (hm : List (String × String)) (cols : List String) : List String :=
  cols.map (fun c =>
    match lookupA hm c with
    | some h => h
    | none => c)

/-- The column labels of `df_helper = df.rename(columns=helper_map)`. -/
def dfHcolsOf (df : DF α) (cm : ColMap) : List String :=
  renameCols (helperMapOf cm) df.cols

/-- Index of the first occurrence of a label in a column list. -/
def idxOf? : List String → String → Option Nat
  | [], _ => none
  | c' :: rest, c => if c' = c then some 0 else (idxOf? rest c).map (fun i => i + 1)

/-- Cell of a row under a column label (first occurrence of the label). -/
def cellAt (cols : List String) (r : List (Option α)) (c : String) : Option α :=
  match idxOf? cols c with
  | some i => r.getD i none
  | none => none

/-- Cell of an output row under a variable column label. -/
def cellOfRow (o : LongDF α) (r : List α × String × List (Option α))
    (c : String) : Option α :=
  match idxOf? o.varCols c with
  | some i => r.2.2.getD i none
  | none => none

/-- All positions of a label in a column list (pandas `get_indexer_for` on a
possibly duplicated column index). -/
def positionsOf (cols : List String) (t : String) : List Nat :=
  (List.range cols.length).filter (fun i => cols.getD i "" = t)

/-- Removal of the leading `__H__` (the `str.replace("^__H__", "", regex=True)`
of line 69: drop the prefix when present). -/
def stripHead (s : String) : String :=
  if s.data.take 5 = "__H__".data then String.mk (s.data.drop 5) else s

/-- Split a character list at the first bar character. -/
def splitBar : List Char → Option (List Char × List Char)
  | [] => none
  | c :: cs =>
    if c = '|' then some ([], cs)
    else (splitBar cs).map (fun p => (c :: p.1, p.2))

/-- The `str.split("|", n=1, expand=True)` of line 70 applied to one tag:
the part before the first bar and, when a bar exists, the part after it. -/
def split1 (s : String) : String × Option String :=
  match splitBar s.data with
  | none => (s, none)
  | some (a, b) => (String.mk a, some (String.mk b))

/-- Message of the `ValueError` raised by `melt` when a column is named like
its `value_name`. -/
def valueNameMsg : String :=
  "value_name (value) cannot match an element in the DataFrame columns."

/-- Message of the `KeyError` raised by `melt` for absent id or value columns. -/
def meltMissingMsg (missing : List String) : String :=
  "The following id_vars or value_vars are not present in the DataFrame: "
    ++ pyListRepr missing

/-- The error checks of `pd.melt` (line 59): the `value_name` clash check and
the presence check of `id_vars` and `value_vars` in the column labels. -/
def meltGuard (dfHcols : List String) (idCols : List String)
    (valueVars : List String) : Except String Unit :=
  if "value" ∈ dfHcols then .error valueNameMsg
  else
    let missing := (idCols ++ valueVars).filter (fun c => decide (c ∉ dfHcols))
    if missing ≠ [] then .error (meltMissingMsg (dedupF missing))
    else .ok ()

/-- The rows produced by `pd.melt` (lines 59-64): the selected value columns
are all positions whose label occurs in `value_vars` (first-mention order,
deduplicated); the melted frame is column-major — for each selected position,
one row per input row carrying the identifier cells, the helper label and the
cell value. -/
def meltRows (df : DF α) (dfHcols : List String) (idCols : List String)
    (valueVars : List String) : List (List (Option α) × String × Option α) :=
  let vpos := dedupF (valueVars.flatMap (fun t => positionsOf dfHcols t))
  vpos.flatMap (fun p =>
    df.rows.map (fun r =>
      (idCols.map (fun c => cellAt dfHcols r c), dfHcols.getD p "", r.getD p none)))

/-- Lines 67-73: parse each melted helper label into the element and the
variable column by stripping `__H__` and splitting at the first bar. -/
def tagRowsOf (melted : List (List (Option α) × String × Option α)) :
    List (List (Option α) × (String × Option String) × Option α) :=
  melted.map (fun m => (m.1, split1 (stripHead m.2.1), m.2.2))

/-- Scan of missing values in a key: `some` of the plain values when every
cell is present, else `none` (a missing group key drops the row in `groupby`). -/
def allSome : List (Option α) → Option (List α)
  | [] => some []
  | none :: _ => none
  | some a :: t => (allSome t).map (fun l => a :: l)

/-- The rows that take part in the grouping of `pivot_table`: rows whose group
key (identifier values, element, variable) has no missing component. -/
def filteredOf (tagged : List (List (Option α) × (String × Option String) × Option α)) :
    List (PKey α × Option α) :=
  tagged.filterMap (fun tr =>
    match allSome tr.1, tr.2.1.2 with
    | some ids, some c => some ((ids, tr.2.1.1, c), tr.2.2)
    | _, _ => none)

/-- The `aggfunc="first"` of `pivot_table`: first non-missing value of a group,
in melted row order. -/
def firstVal [DecidableEq α] (filtered : List (PKey α × Option α)) (k : PKey α) :
    Option α :=
  ((filtered.filter (fun f => decide (f.1 = k))).map (fun f => f.2)).findSome? id

/-- Value of a surviving group under a key (lookup in the unstacked table). -/
def lookupVal [DecidableEq α] : List (PKey α × α) → PKey α → Option α
  | [], _ => none
  | s :: rest, k => if s.1 = k then some s.2 else lookupVal rest k

/-- The distinct group keys in sorted order (`groupby` with `sort=True`). -/
def sortedKeysOf [LinearOrder α] (filtered : List (PKey α × Option α)) :
    List (PKey α) :=
  List.insertionSort (fun k k' => pkeyLeB k k' = true) (dedupF (filtered.map (fun f => f.1)))

/-- The aggregated groups that survive `dropna(how="all")`: each sorted key
paired with its first non-missing value, keys with a missing aggregate
dropped. -/
def survivorsOf [LinearOrder α] (filtered : List (PKey α × Option α)) :
    List (PKey α × α) :=
  ((sortedKeysOf filtered).map (fun k => (k, firstVal filtered k))).filterMap
    (fun kv => kv.2.map (fun v => (kv.1, v)))

/-- The output row keys: surviving `(identifier values, element)` prefixes in
first-appearance (hence sorted) order, as `unstack` leaves them. -/
def rowKeysOf [LinearOrder α] (survivors : List (PKey α × α)) : List (RKey α) :=
  dedupF (survivors.map (fun s => (s.1.1, s.1.2.1)))

/-- The output variable columns: the distinct surviving variable tags, sorted
by `sort_index(axis=1)`; tags whose groups were all dropped do not appear
(the final `dropna(how="all", axis=1)` of `pivot_table`). -/
def varColsOf [LinearOrder α] (survivors : List (PKey α × α)) : List String :=
  List.insertionSort (fun a b => strLeB a b = true)
    (dedupF (survivors.map (fun s => s.1.2.2)))

/-- The `pivot_table(values="value", index=id_cols + ["element"],
columns="__col", aggfunc="first")` call plus `reset_index` (lines 76-82), with
the pandas defaults `sort=True` and `dropna=True`: group keys are sorted
lexicographically, groups whose aggregate is missing are dropped, the variable
columns are the surviving tags sorted by name, and each output row is one
surviving `(identifier values, element)` prefix. -/
def pivotFirst [LinearOrder α] (idCols : List String)
    (tagged : List (List (Option α) × (String × Option String) × Option α)) :
    LongDF α :=
  let survivors := survivorsOf (filteredOf tagged)
  { idCols := idCols
    varCols := varColsOf survivors
    rows := (rowKeysOf survivors).map (fun rk =>
      (rk.1, rk.2, (varColsOf survivors).map (fun c => lookupVal survivors (rk.1, rk.2, c)))) }

/-- The `convert` function of core.py (lines 15-84): merge the partial
mappings, check emptiness, run the sanity checks, rename to helper columns,
melt, tag, and pivot. -/
def convert [LinearOrder α] (df : DF α) (idCols : List String)
    (mapping : List (List Entry)) (validate : Bool) :
    Except String (LongDF α) :=
  match mergeColmap validate mapping with
  | .error e => .error e
  | .ok cm =>
    if cm = [] then .error emptyMsg
    else
      match sanityChecks df idCols cm validate with
      | .error e => .error e
      | .ok () =>
        match meltGuard (dfHcolsOf df cm) idCols (valueVarsOf cm) with
        | .error e => .error e
        | .ok () =>
          .ok (pivotFirst idCols
            (tagRowsOf (meltRows df (dfHcolsOf df cm) idCols (valueVarsOf cm))))

/-- The last target assigned to a source column by an association sequence:
the spec notion of last-write-wins merging. -/
def lastAssigned : List Entry → String → Option Target
  | [], _ => none
  | kv :: rest, k =>
    match lastAssigned rest k with
    | some v => some v
    | none => if kv.1 = k then some kv.2 else none

/-! Model of `load_mapping` (core.py lines 111-172): the mapping loader,
dispatching on the file extension. File reading and raw-text parsing are out
of scope; the loader receives the already-parsed contents of both supported
encodings, mirroring that the dispatch itself only inspects the suffix. -/

/-- Parsed JSON values. -/
inductive Json where
  | null
  | bool (b : Bool)
  | num (n : Int)
  | str (s : String)
  | arr (items : List Json)
  | obj (fields : List (String × Json))

/-- A parsed CSV mapping file: header and data rows. -/
structure CsvTable where
  header : List String
  rows : List (List String)
deriving DecidableEq

/-- Python whitespace test for `str.strip` (the common whitespace characters). -/
def isWS (c : Char) : Bool :=
  c = ' ' || c = '\t' || c = '\n' || c = '\r'

/-- Python `str.strip()`: drop leading and trailing whitespace. -/
def pyStrip (s : String) : String :=
  String.mk (((s.data.dropWhile isWS).reverse.dropWhile isWS).reverse)

/-- Python `str(...)` on a parsed JSON scalar; the mapping fields are scalars,
so the rendering of containers is abstracted to a fixed token. -/
def pyStr : Json → String
  | .null => "None"
  | .bool true => "True"
  | .bool false => "False"
  | .num n => toString n
  | .str s => s
  | .arr _ => "<container>"
  | .obj _ => "<container>"

/-- The `REQUIRED_KEYS` of core.py line 13. -/
def requiredKeys : List String := ["source_col", "element_id", "variable_col"]

/-- Cell of a CSV row under a header label. -/
def csvCell (header : List String) (r : List String) (c : String) : String :=
  match idxOf? header c with
  | some i => r.getD i ""
  | none => ""

/-- The tabular branch of `load_mapping` (lines 129-137): check the required
columns, strip the three fields, one singleton dict per row. -/
def parseCsvMapping (t : CsvTable) : Except String (List (List Entry)) :=
  if requiredKeys.all (fun c => decide (c ∈ t.header)) then
    .ok (t.rows.map (fun r =>
      [(pyStrip (csvCell t.header r "source_col"),
        (pyStrip (csvCell t.header r "element_id"),
         pyStrip (csvCell t.header r "variable_col")))]))
  else
    .error ("Mapping CSV must have columns: "
      ++ pyListRepr ["element_id", "source_col", "variable_col"] ++ ".")

/-- Keys of a JSON object. -/
def jsonKeys (fields : List (String × Json)) : List String :=
  fields.map (fun f => f.1)

/-- The `_is_block_style_named` predicate (lines 87-97): a non-empty object
whose every value is a list of objects carrying the three required keys. -/
def isBlockStyleNamed : Json → Bool
  | .obj fields =>
    !fields.isEmpty && fields.all (fun f =>
      match f.2 with
      | .arr items => items.all (fun it =>
          match it with
          | .obj ikvs => requiredKeys.all (fun rk => decide (rk ∈ jsonKeys ikvs))
          | _ => false)
      | _ => false)
  | _ => false

/-- The `_is_key_value_style` predicate (lines 99-108): a non-empty object
whose every value is a 2-element list. -/
def isKeyValueStyle : Json → Bool
  | .obj fields =>
    !fields.isEmpty && fields.all (fun f =>
      match f.2 with
      | .arr items => decide (items.length = 2)
      | _ => false)
  | _ => false

/-- Python dict access `row[k]`; the block-style gate guarantees presence. -/
def jGet (fields : List (String × Json)) (k : String) : Json :=
  match lookupA fields k with
  | some v => v
  | none => .null

/-- The block-style branch (lines 146-153): flatten all blocks, one singleton
dict per row, fields stripped. -/
def parseBlock : Json → List (List Entry)
  | .obj fields =>
    fields.flatMap (fun f =>
      match f.2 with
      | .arr items => items.map (fun it =>
          match it with
          | .obj ikvs =>
            [(pyStrip (pyStr (jGet ikvs "source_col")),
              (pyStrip (pyStr (jGet ikvs "element_id")),
               pyStrip (pyStr (jGet ikvs "variable_col"))))]
          | _ => [])
      | _ => [])
  | _ => []

/-- Message of the redundant per-entry check of the key-value branch (line 159). -/
def kvMsg : String := "Key–value JSON mapping values must be [element_id, variable_col]"

/-- The key-value branch (lines 156-164): re-check each value is a 2-element
list, one singleton dict per entry, fields stripped. -/
def parseKVRows : List (String × Json) → Except String (List (List Entry))
  | [] => .ok []
  | (k, v) :: rest =>
    match v with
    | .arr [a, b] =>
      (parseKVRows rest).map (fun l =>
        [(pyStrip k, (pyStrip (pyStr a), pyStrip (pyStr b)))] :: l)
    | _ => .error kvMsg

/-- The key-value branch applied to the parsed JSON (only reached for
objects, which the key-value gate guarantees). -/
def parseKV : Json → Except String (List (List Entry))
  | .obj fields => parseKVRows fields
  | _ => .ok []

/-- Message of the unrecognized-JSON error (lines 166-170). -/
def jsonFormatMsg : String :=
  "Unrecognized JSON mapping format. Expected either named blocks (\x7b\"block_a\": [ \x7b...\x7d, ... ]\x7d) or key-value style (\x7b\"pre_i1\": [\"i1\",\"pre\"], ...\x7d)."

/-- Message of the unsupported-extension error (line 172). -/
def extMsg : String := "Mapping must be .csv or .json"

/-- Python `str.lower()` of a file suffix. -/
def lowerExt (s : String) : String := String.mk (s.data.map Char.toLower)

/-- The `load_mapping` dispatch (lines 126-172): `.csv` takes the tabular
branch, `.json` tries the block-style shape first and the key-value shape
second, any other suffix fails with the extension error. -/
def loadMapping (suffix : String) (csv : CsvTable) (j : Json) :
    Except String (List (List Entry)) :=
  if lowerExt suffix = ".csv" then parseCsvMapping csv
  else if lowerExt suffix = ".json" then
    if isBlockStyleNamed j then .ok (parseBlock j)
    else if isKeyValueStyle j then parseKV j
    else .error jsonFormatMsg
  else .error extMsg

/-! Lemmas about the lexicographic comparisons. -/

lemma listLtB_irrefl [LinearOrder α] (a : List α) : listLtB a a = false := by
  induction a with
  | nil => rfl
  | cons x xs ih => simp [listLtB, lt_irrefl, ih]

lemma listLtB_trans [LinearOrder α] {a b c : List α}
    (h1 : listLtB a b = true) (h2 : listLtB b c = true) : listLtB a c = true := by
  induction a generalizing b c with
  | nil =>
    cases b with
    | nil => simp [listLtB] at h1
    | cons y ys =>
      cases c with
      | nil => simp [listLtB] at h2
      | cons z zs => simp [listLtB]
  | cons x xs ih =>
    cases b with
    | nil => simp [listLtB] at h1
    | cons y ys =>
      cases c with
      | nil => simp [listLtB] at h2
      | cons z zs =>
        simp only [listLtB] at h1 h2 ⊢
        by_cases hxy : x < y
        · by_cases hyz : y < z
          · simp [lt_trans hxy hyz]
          · by_cases hyz' : y = z
            · subst hyz'; simp [hxy]
            · simp [hyz, hyz'] at h2
        · by_cases hxy' : x = y
          · subst hxy'
            simp only [if_neg hxy, if_pos rfl] at h1
            by_cases hxz : x < z
            · simp [hxz]
            · by_cases hxz' : x = z
              · subst hxz'
                simp only [if_neg hxz, if_pos rfl] at h2 ⊢
                exact ih h1 h2
              · simp [hxz, hxz'] at h2
          · simp [hxy, hxy'] at h1

lemma listLtB_asymm [LinearOrder α] {a b : List α} (h : listLtB a b = true) :
    listLtB b a = false := by
  cases hba : listLtB b a with
  | false => rfl
  | true => exact absurd (listLtB_trans h hba) (by simp [listLtB_irrefl])

lemma listLtB_connex [LinearOrder α] {a b : List α}
    (h1 : listLtB a b = false) (h2 : listLtB b a = false) : a = b := by
  induction a generalizing b with
  | nil =>
    cases b with
    | nil => rfl
    | cons y ys => simp [listLtB] at h1
  | cons x xs ih =>
    cases b with
    | nil => simp [listLtB] at h2
    | cons y ys =>
      simp only [listLtB] at h1 h2
      by_cases hxy : x < y
      · simp [hxy] at h1
      · by_cases hyx : y < x
        · simp [hyx] at h2
        · have hx : x = y := le_antisymm (le_of_not_lt hyx) (le_of_not_lt hxy)
          subst hx
          simp only [if_neg hxy, if_pos rfl] at h1 h2
          rw [ih h1 h2]

lemma listLtB_trichotomy [LinearOrder α] (a b : List α) :
    listLtB a b = true ∨ a = b ∨ listLtB b a = true := by
  cases h1 : listLtB a b with
  | true => exact Or.inl rfl
  | false =>
    cases h2 : listLtB b a with
    | true => exact Or.inr (Or.inr rfl)
    | false => exact Or.inr (Or.inl (listLtB_connex h1 h2))

lemma listLeB_iff [LinearOrder α] {a b : List α} :
    listLeB a b = true ↔ (listLtB a b = true ∨ a = b) := by
  induction a generalizing b with
  | nil =>
    cases b with
    | nil => simp [listLeB, listLtB]
    | cons y ys => simp [listLeB, listLtB]
  | cons x xs ih =>
    cases b with
    | nil => simp [listLeB, listLtB]
    | cons y ys =>
      simp only [listLeB, listLtB]
      by_cases hxy : x < y
      · simp [hxy]
      · by_cases hxy' : x = y
        · subst hxy'; simp [hxy, ih]
        · simp [hxy, hxy']

lemma listLeB_refl [LinearOrder α] (a : List α) : listLeB a a = true :=
  listLeB_iff.mpr (Or.inr rfl)

lemma listLeB_total [LinearOrder α] (a b : List α) :
    listLeB a b = true ∨ listLeB b a = true := by
  rcases listLtB_trichotomy a b with h | h | h
  · exact Or.inl (listLeB_iff.mpr (Or.inl h))
  · exact Or.inl (listLeB_iff.mpr (Or.inr h))
  · exact Or.inr (listLeB_iff.mpr (Or.inl h))

lemma listLeB_trans [LinearOrder α] {a b c : List α}
    (h1 : listLeB a b = true) (h2 : listLeB b c = true) : listLeB a c = true := by
  rcases listLeB_iff.mp h1 with h1' | rfl
  · rcases listLeB_iff.mp h2 with h2' | rfl
    · exact listLeB_iff.mpr (Or.inl (listLtB_trans h1' h2'))
    · exact listLeB_iff.mpr (Or.inl h1')
  · exact h2

lemma listLeB_antisymm [LinearOrder α] {a b : List α}
    (h1 : listLeB a b = true) (h2 : listLeB b a = true) : a = b := by
  rcases listLeB_iff.mp h1 with h1' | rfl
  · rcases listLeB_iff.mp h2 with h2' | rfl
    · exact absurd (listLtB_trans h1' h2') (by simp [listLtB_irrefl])
    · rfl
  · rfl

lemma listLtB_of_leB_ne [LinearOrder α] {a b : List α}
    (h1 : listLeB a b = true) (h2 : a ≠ b) : listLtB a b = true := by
  rcases listLeB_iff.mp h1 with h | h
  · exact h
  · exact absurd h h2

lemma strLtB_trans {a b c : String} (h1 : strLtB a b = true)
    (h2 : strLtB b c = true) : strLtB a c = true :=
  listLtB_trans (α := Char) h1 h2

lemma string_eq_of_data_eq {a b : String} (h : a.data = b.data) : a = b := by
  cases a; cases b
  exact congrArg String.mk h

lemma strLtB_connex {a b : String} (h1 : strLtB a b = false)
    (h2 : strLtB b a = false) : a = b :=
  string_eq_of_data_eq (listLtB_connex (α := Char) h1 h2)

lemma strLtB_irrefl (a : String) : strLtB a a = false := listLtB_irrefl a.data

lemma strLeB_iff {a b : String} : strLeB a b = true ↔ (strLtB a b = true ∨ a = b) := by
  unfold strLeB strLtB
  rw [listLeB_iff]
  constructor
  · rintro (h | h)
    · exact Or.inl h
    · exact Or.inr (string_eq_of_data_eq h)
  · rintro (h | rfl)
    · exact Or.inl h
    · exact Or.inr rfl

lemma strLeB_total (a b : String) : strLeB a b = true ∨ strLeB b a = true :=
  listLeB_total a.data b.data

lemma strLeB_trans {a b c : String} (h1 : strLeB a b = true)
    (h2 : strLeB b c = true) : strLeB a c = true :=
  listLeB_trans (α := Char) h1 h2

lemma strLtB_of_leB_ne {a b : String} (h1 : strLeB a b = true) (h2 : a ≠ b) :
    strLtB a b = true := by
  rcases strLeB_iff.mp h1 with h | h
  · exact h
  · exact absurd h h2

/-! Lemmas about the key orders. -/

lemma pkeyLeB_iff [LinearOrder α] {k k' : PKey α} : pkeyLeB k k' = true ↔
    (listLtB k.1 k'.1 = true ∨ (k.1 = k'.1 ∧ (strLtB k.2.1 k'.2.1 = true ∨
      (k.2.1 = k'.2.1 ∧ strLeB k.2.2 k'.2.2 = true)))) := by
  unfold pkeyLeB
  split_ifs with h1 h2 h3 h4 <;> simp_all

lemma pkeyLeB_total [LinearOrder α] (k k' : PKey α) :
    pkeyLeB k k' = true ∨ pkeyLeB k' k = true := by
  rcases listLtB_trichotomy k.1 k'.1 with h | h | h
  · exact Or.inl (pkeyLeB_iff.mpr (Or.inl h))
  · rcases listLtB_trichotomy k.2.1.data k'.2.1.data with h2 | h2 | h2
    · exact Or.inl (pkeyLeB_iff.mpr (Or.inr ⟨h, Or.inl h2⟩))
    · have hs : k.2.1 = k'.2.1 := string_eq_of_data_eq h2
      rcases strLeB_total k.2.2 k'.2.2 with h3 | h3
      · exact Or.inl (pkeyLeB_iff.mpr (Or.inr ⟨h, Or.inr ⟨hs, h3⟩⟩))
      · exact Or.inr (pkeyLeB_iff.mpr (Or.inr ⟨h.symm, Or.inr ⟨hs.symm, h3⟩⟩))
    · exact Or.inr (pkeyLeB_iff.mpr (Or.inr ⟨h.symm, Or.inl h2⟩))
  · exact Or.inr (pkeyLeB_iff.mpr (Or.inl h))

lemma pkeyLeB_trans [LinearOrder α] {a b c : PKey α}
    (h1 : pkeyLeB a b = true) (h2 : pkeyLeB b c = true) : pkeyLeB a c = true := by
  rcases pkeyLeB_iff.mp h1 with hl1 | ⟨he1, hr1⟩
  · rcases pkeyLeB_iff.mp h2 with hl2 | ⟨he2, _⟩
    · exact pkeyLeB_iff.mpr (Or.inl (listLtB_trans hl1 hl2))
    · exact pkeyLeB_iff.mpr (Or.inl (he2 ▸ hl1))
  · rcases pkeyLeB_iff.mp h2 with hl2 | ⟨he2, hr2⟩
    · exact pkeyLeB_iff.mpr (Or.inl (he1 ▸ hl2))
    · refine pkeyLeB_iff.mpr (Or.inr ⟨he1.trans he2, ?_⟩)
      rcases hr1 with hs1 | ⟨hq1, hv1⟩
      · rcases hr2 with hs2 | ⟨hq2, _⟩
        · exact Or.inl (strLtB_trans hs1 hs2)
        · exact Or.inl (hq2 ▸ hs1)
      · rcases hr2 with hs2 | ⟨hq2, hv2⟩
        · exact Or.inl (hq1 ▸ hs2)
        · exact Or.inr ⟨hq1.trans hq2, strLeB_trans hv1 hv2⟩

lemma rkeyLeB_iff [LinearOrder α] {k k' : RKey α} : rkeyLeB k k' = true ↔
    (listLtB k.1 k'.1 = true ∨ (k.1 = k'.1 ∧ strLeB k.2 k'.2 = true)) := by
  unfold rkeyLeB
  split_ifs with h1 h2 <;> simp_all

lemma rkeyLtB_iff [LinearOrder α] {k k' : RKey α} : rkeyLtB k k' = true ↔
    (listLtB k.1 k'.1 = true ∨ (k.1 = k'.1 ∧ strLtB k.2 k'.2 = true)) := by
  unfold rkeyLtB
  split_ifs with h1 h2 <;> simp_all

lemma rkeyLtB_of_leB_ne [LinearOrder α] {k k' : RKey α}
    (h1 : rkeyLeB k k' = true) (h2 : k ≠ k') : rkeyLtB k k' = true := by
  rcases rkeyLeB_iff.mp h1 with h | ⟨he, hs⟩
  · exact rkeyLtB_iff.mpr (Or.inl h)
  · refine rkeyLtB_iff.mpr (Or.inr ⟨he, ?_⟩)
    refine strLtB_of_leB_ne hs ?_
    intro hv
    exact h2 (Prod.ext he hv)

lemma rkeyLeB_of_pkeyLeB [LinearOrder α] {k k' : PKey α}
    (h : pkeyLeB k k' = true) : rkeyLeB (k.1, k.2.1) (k'.1, k'.2.1) = true := by
  rcases pkeyLeB_iff.mp h with h1 | ⟨he, hr⟩
  · exact rkeyLeB_iff.mpr (Or.inl h1)
  · rcases hr with hs | ⟨hq, _⟩
    · exact rkeyLeB_iff.mpr (Or.inr ⟨he, strLeB_iff.mpr (Or.inl hs)⟩)
    · exact rkeyLeB_iff.mpr (Or.inr ⟨he, hq ▸ strLeB_iff.mpr (Or.inr rfl)⟩)

/-! Lemmas about first-occurrence deduplication. -/

lemma mem_dedupFGo [DecidableEq β] (seen l : List β) (x : β) :
    x ∈ dedupFGo seen l ↔ x ∈ l ∧ x ∉ seen := by
  induction l generalizing seen with
  | nil => simp [dedupFGo]
  | cons y ys ih =>
    by_cases hy : y ∈ seen
    · simp only [dedupFGo, if_pos hy, ih, List.mem_cons]
      constructor
      · rintro ⟨hx, hns⟩
        exact ⟨Or.inr hx, hns⟩
      · rintro ⟨rfl | hx, hns⟩
        · exact absurd hy hns
        · exact ⟨hx, hns⟩
    · simp only [dedupFGo, if_neg hy, List.mem_cons, ih]
      constructor
      · rintro (rfl | ⟨h1, h2⟩)
        · exact ⟨Or.inl rfl, hy⟩
        · exact ⟨Or.inr h1, fun hx => h2 (Or.inr hx)⟩
      · rintro ⟨rfl | hx, hns⟩
        · exact Or.inl rfl
        · by_cases hxy : x = y
          · exact Or.inl hxy
          · refine Or.inr ⟨hx, ?_⟩
            simp [hxy, hns]

lemma mem_dedupF [DecidableEq β] (l : List β) (x : β) : x ∈ dedupF l ↔ x ∈ l := by
  simp [dedupF, mem_dedupFGo]

lemma dedupFGo_sublist [DecidableEq β] (seen l : List β) : (dedupFGo seen l).Sublist l := by
  induction l generalizing seen with
  | nil => simp [dedupFGo]
  | cons y ys ih =>
    by_cases hy : y ∈ seen
    · simp only [dedupFGo, if_pos hy]
      exact (ih seen).cons y
    · simp only [dedupFGo, if_neg hy]
      exact (ih (y :: seen)).cons₂ y

lemma dedupF_sublist [DecidableEq β] (l : List β) : (dedupF l).Sublist l :=
  dedupFGo_sublist [] l

lemma nodup_dedupFGo [DecidableEq β] (seen l : List β) : (dedupFGo seen l).Nodup := by
  induction l generalizing seen with
  | nil => simp [dedupFGo]
  | cons y ys ih =>
    by_cases hy : y ∈ seen
    · simpa [dedupFGo, if_pos hy] using ih seen
    · simp only [dedupFGo, if_neg hy, List.nodup_cons]
      refine ⟨fun hmem => ?_, ih (y :: seen)⟩
      rcases (mem_dedupFGo _ _ _).mp hmem with ⟨_, hns⟩
      exact hns (List.mem_cons_self _ _)

lemma nodup_dedupF [DecidableEq β] (l : List β) : (dedupF l).Nodup :=
  nodup_dedupFGo [] l

/-! Small list lemmas used throughout. -/

lemma pairwise_filterMap {S : β → β → Prop} {R : γ → γ → Prop} (f : β → Option γ)
    (hf : ∀ a b x y, S a b → f a = some x → f b = some y → R x y) :
    ∀ {l : List β}, l.Pairwise S → (l.filterMap f).Pairwise R := by
  intro l h
  induction h with
  | nil => simp
  | @cons a l hx _ ih =>
    rw [List.filterMap_cons]
    cases hfa : f a with
    | none => exact ih
    | some x =>
      refine List.Pairwise.cons (fun y hy => ?_) ih
      rcases List.mem_filterMap.mp hy with ⟨b, hb, hfb⟩
      exact hf a b x y (hx b hb) hfa hfb

lemma idxOf?_spec : ∀ {cols : List String} {c : String} {i : Nat},
    idxOf? cols c = some i → i < cols.length ∧ cols.getD i "" = c := by
  intro cols
  induction cols with
  | nil => intro c i h; simp [idxOf?] at h
  | cons c' rest ih =>
    intro c i h
    by_cases hc : c' = c
    · simp only [idxOf?, if_pos hc] at h
      cases h
      simpa using hc
    · simp only [idxOf?, if_neg hc] at h
      rcases Option.map_eq_some'.mp h with ⟨j, hj, rfl⟩
      rcases ih hj with ⟨h1, h2⟩
      exact ⟨by simpa using Nat.succ_lt_succ h1, by simpa using h2⟩

lemma idxOf?_mem : ∀ {cols : List String} {c : String}, c ∈ cols →
    ∃ i, idxOf? cols c = some i := by
  intro cols
  induction cols with
  | nil => intro c h; simp at h
  | cons c' rest ih =>
    intro c h
    by_cases hc : c' = c
    · exact ⟨0, by simp [idxOf?, hc]⟩
    · rcases List.mem_cons.mp h with rfl | h'
      · exact absurd rfl hc
      · rcases ih h' with ⟨i, hi⟩
        exact ⟨i + 1, by simp [idxOf?, hc, hi]⟩

lemma mem_positionsOf {cols : List String} {t : String} {i : Nat} :
    i ∈ positionsOf cols t ↔ (i < cols.length ∧ cols.getD i "" = t) := by
  simp [positionsOf, List.mem_filter, List.mem_range]

lemma allSome_eq_some_iff : ∀ {l : List (Option α)} {ids : List α},
    allSome l = some ids ↔ l = ids.map some := by
  intro l
  induction l with
  | nil =>
    intro ids
    constructor
    · intro h
      cases h
      rfl
    · intro h
      cases ids with
      | nil => rfl
      | cons a t => simp at h
  | cons x t ih =>
    intro ids
    cases x with
    | none =>
      simp only [allSome]
      constructor
      · intro h; cases h
      · intro h
        cases ids with
        | nil => simp at h
        | cons a t' => simp at h
    | some a =>
      simp only [allSome]
      constructor
      · intro h
        rcases Option.map_eq_some'.mp h with ⟨t', ht', rfl⟩
        simp [ih.mp ht']
      · intro h
        cases ids with
        | nil => simp at h
        | cons b t' =>
          simp only [List.map_cons, List.cons.injEq] at h
          rcases h with ⟨h1, h2⟩
          cases Option.some.inj h1
          rw [ih.mpr h2]
          rfl

lemma allSome_of_no_none {l : List (Option α)} (h : ∀ x ∈ l, x ≠ none) :
    ∃ ids, allSome l = some ids := by
  induction l with
  | nil => exact ⟨[], rfl⟩
  | cons x t ih =>
    cases x with
    | none => exact absurd rfl (h none (List.mem_cons_self _ _))
    | some a =>
      rcases ih (fun y hy => h y (List.mem_cons_of_mem _ hy)) with ⟨ids, hids⟩
      exact ⟨a :: ids, by simp [allSome, hids]⟩

/-! Lemmas about the dict operations and the merge loop. -/

lemma anyKey_iff {cm : List (String × β)} {k : String} :
    cm.any (fun p => p.1 = k) = true ↔ k ∈ cm.map (fun p => p.1) := by
  simp [List.any_eq_true, List.mem_map]

lemma lookupA_append (l1 l2 : List (String × β)) (k : String) :
    lookupA (l1 ++ l2) k =
      (match lookupA l1 k with
       | some v => some v
       | none => lookupA l2 k) := by
  induction l1 with
  | nil => rfl
  | cons p rest ih =>
    by_cases hp : p.1 = k
    · simp [lookupA, hp]
    · simp only [List.cons_append, lookupA, if_neg hp]
      exact ih

lemma lookupA_mapUpd_eq {cm : List (String × β)} {k : String} {v : β}
    (hmem : k ∈ cm.map (fun p => p.1)) :
    lookupA (cm.map (fun p => if p.1 = k then (k, v) else p)) k = some v := by
  induction cm with
  | nil => simp at hmem
  | cons q cm ih =>
    by_cases hq : q.1 = k
    · simp [lookupA, hq]
    · simp only [List.map_cons, if_neg hq, lookupA]
      rcases List.mem_map.mp hmem with ⟨p, hp, he⟩
      rcases List.mem_cons.mp hp with rfl | hp'
      · exact absurd he hq
      · exact ih (List.mem_map.mpr ⟨p, hp', he⟩)

lemma lookupA_mapUpd_ne {cm : List (String × β)} {k k' : String} {v : β}
    (hne : k' ≠ k) :
    lookupA (cm.map (fun p => if p.1 = k then (k, v) else p)) k' = lookupA cm k' := by
  induction cm with
  | nil => rfl
  | cons q cm ih =>
    by_cases hq : q.1 = k
    · have h1 : ¬((k, v).1 = k') := fun h => hne h.symm
      have h2 : ¬(q.1 = k') := fun h => hne (h.symm.trans hq)
      simp only [List.map_cons, if_pos hq, lookupA, if_neg h1, if_neg h2]
      exact ih
    · simp only [List.map_cons, if_neg hq, lookupA]
      by_cases hq' : q.1 = k'
      · simp [hq']
      · simp only [if_neg hq']
        exact ih

lemma lookupA_eq_none_of_not_mem {cm : List (String × β)} {k : String}
    (h : k ∉ cm.map (fun p => p.1)) : lookupA cm k = none := by
  induction cm with
  | nil => rfl
  | cons q cm ih =>
    simp only [List.map_cons, List.mem_cons] at h
    push_neg at h
    simp only [lookupA]
    rw [if_neg (fun hh => h.1 hh.symm)]
    exact ih h.2

lemma lookupA_dictInsert (cm : List (String × β)) (k k' : String) (v : β) :
    lookupA (dictInsert cm k v) k' = if k' = k then some v else lookupA cm k' := by
  by_cases hk : cm.any (fun p => p.1 = k) = true
  · unfold dictInsert
    rw [if_pos hk]
    by_cases hke : k' = k
    · subst hke
      rw [if_pos rfl]
      exact lookupA_mapUpd_eq (anyKey_iff.mp hk)
    · rw [if_neg hke]
      exact lookupA_mapUpd_ne hke
  · unfold dictInsert
    rw [if_neg hk]
    have hnm : k ∉ cm.map (fun p => p.1) := fun h => hk (anyKey_iff.mpr h)
    rw [lookupA_append]
    by_cases hke : k' = k
    · subst hke
      rw [lookupA_eq_none_of_not_mem hnm]
      simp [lookupA]
    · rw [if_neg hke]
      cases hl : lookupA cm k' with
      | some w => rfl
      | none =>
        have hne : ¬(k = k') := fun h => hke h.symm
        simp [lookupA, hne]

lemma dictInsert_mem {cm : List (String × β)} {k : String} {v : β} {p : String × β}
    (hp : p ∈ dictInsert cm k v) : p ∈ cm ∨ p = (k, v) := by
  unfold dictInsert at hp
  by_cases hk : cm.any (fun q => q.1 = k) = true
  · rw [if_pos hk] at hp
    rcases List.mem_map.mp hp with ⟨q, hq, he⟩
    by_cases hqk : q.1 = k
    · rw [if_pos hqk] at he
      exact Or.inr he.symm
    · rw [if_neg hqk] at he
      exact Or.inl (he ▸ hq)
  · rw [if_neg hk] at hp
    rcases List.mem_append.mp hp with h | h
    · exact Or.inl h
    · simp only [List.mem_singleton] at h
      exact Or.inr h

lemma keys_dictInsert_present {cm : List (String × β)} {k : String} {v : β}
    (hk : cm.any (fun q => q.1 = k) = true) :
    (dictInsert cm k v).map (fun p => p.1) = cm.map (fun p => p.1) := by
  unfold dictInsert
  rw [if_pos hk, List.map_map]
  refine List.map_congr_left (fun q _ => ?_)
  by_cases hqk : q.1 = k
  · simp [Function.comp, hqk]
  · simp [Function.comp, hqk]

lemma keys_dictInsert_absent {cm : List (String × β)} {k : String} {v : β}
    (hk : cm.any (fun q => q.1 = k) = false) :
    (dictInsert cm k v).map (fun p => p.1) = cm.map (fun p => p.1) ++ [k] := by
  unfold dictInsert
  rw [if_neg (by simp [hk]), List.map_append]
  rfl

lemma nodup_keys_dictInsert {cm : List (String × β)} {k : String} {v : β}
    (h : (cm.map (fun p => p.1)).Nodup) :
    ((dictInsert cm k v).map (fun p => p.1)).Nodup := by
  cases hk : cm.any (fun q => q.1 = k) with
  | true => rw [keys_dictInsert_present hk]; exact h
  | false =>
    rw [keys_dictInsert_absent hk]
    rw [List.nodup_append]
    refine ⟨h, List.nodup_singleton k, ?_⟩
    intro x hx hx'
    simp only [List.mem_singleton] at hx'
    subst hx'
    exact absurd (anyKey_iff.mpr hx) (by simp [hk])

lemma lookupA_some_mem {cm : List (String × β)} {k : String} {v : β}
    (h : lookupA cm k = some v) : (k, v) ∈ cm := by
  induction cm with
  | nil => cases h
  | cons q rest ih =>
    by_cases hq : q.1 = k
    · simp only [lookupA, if_pos hq] at h
      cases h
      subst hq
      rw [Prod.mk.eta]
      exact List.mem_cons_self _ _
    · simp only [lookupA, if_neg hq] at h
      exact List.mem_cons_of_mem _ (ih h)

lemma lookupA_of_mem_nodup {cm : List (String × β)} {k : String} {v : β}
    (hnd : (cm.map (fun p => p.1)).Nodup) (hm : (k, v) ∈ cm) :
    lookupA cm k = some v := by
  induction cm with
  | nil => cases hm
  | cons q rest ih =>
    simp only [List.map_cons, List.nodup_cons] at hnd
    rcases List.mem_cons.mp hm with rfl | hm'
    · simp [lookupA]
    · have hk : k ∈ rest.map (fun p => p.1) := List.mem_map.mpr ⟨(k, v), hm', rfl⟩
      have hq : q.1 ≠ k := fun he => hnd.1 (he ▸ hk)
      simp only [lookupA, if_neg hq]
      exact ih hnd.2 hm'

/-! Lemmas about the merge fold. -/

lemma mergeFoldl_error (v : Bool) (l : List Entry) (e : String) :
    l.foldl (mergeStep v) (.error e) = .error e := by
  induction l with
  | nil => rfl
  | cons kv rest ih => simpa [mergeStep] using ih

lemma mergeStep_ok_inv {v : Bool} {cm0 cm1 : ColMap} {kv : Entry}
    (h : mergeStep v (.ok cm0) kv = .ok cm1) :
    cm1 = dictInsert cm0 kv.1 kv.2 := by
  dsimp only [mergeStep] at h
  cases hl : lookupA cm0 kv.1 with
  | none => rw [hl] at h; cases h; rfl
  | some v0 =>
    rw [hl] at h
    dsimp only at h
    by_cases hc : v = true ∧ v0 ≠ kv.2
    · rw [if_pos hc] at h; cases h
    · rw [if_neg hc] at h; cases h; rfl

lemma mergeStep_true_ok_consistent {cm0 cm1 : ColMap} {kv : Entry} {v0 : Target}
    (h : mergeStep true (.ok cm0) kv = .ok cm1)
    (hl : lookupA cm0 kv.1 = some v0) : v0 = kv.2 := by
  dsimp only [mergeStep] at h
  rw [hl] at h
  dsimp only at h
  by_cases hc : (true = true ∧ v0 ≠ kv.2)
  · rw [if_pos hc] at h; cases h
  · push_neg at hc
    exact hc rfl

lemma mergeStep_error_inv {cm0 : ColMap} {kv : Entry} {e : String}
    (h : mergeStep true (.ok cm0) kv = .error e) :
    ∃ v0, lookupA cm0 kv.1 = some v0 ∧ v0 ≠ kv.2 ∧ e = conflictMsg kv.1 v0 kv.2 := by
  dsimp only [mergeStep] at h
  cases hl : lookupA cm0 kv.1 with
  | none => rw [hl] at h; cases h
  | some v0 =>
    rw [hl] at h
    dsimp only at h
    by_cases hc : (true = true ∧ v0 ≠ kv.2)
    · rw [if_pos hc] at h
      cases h
      exact ⟨v0, rfl, hc.2, rfl⟩
    · rw [if_neg hc] at h; cases h

lemma mergeFoldl_ok_sub : ∀ (v : Bool) (l : List Entry) (cm0 cm : ColMap),
    l.foldl (mergeStep v) (.ok cm0) = .ok cm → ∀ p ∈ cm, p ∈ cm0 ∨ p ∈ l := by
  intro v l
  induction l with
  | nil =>
    intro cm0 cm h p hp
    cases h
    exact Or.inl hp
  | cons kv rest ih =>
    intro cm0 cm h p hp
    rw [List.foldl_cons] at h
    cases hstep : mergeStep v (.ok cm0) kv with
    | error e => rw [hstep, mergeFoldl_error] at h; cases h
    | ok cm1 =>
      rw [hstep] at h
      rcases ih cm1 cm h p hp with h1 | h1
      · rcases dictInsert_mem (mergeStep_ok_inv hstep ▸ h1) with h2 | h2
        · exact Or.inl h2
        · subst h2
          rw [Prod.mk.eta]
          exact Or.inr (List.mem_cons_self _ _)
      · exact Or.inr (List.mem_cons_of_mem _ h1)

lemma mergeColmap_eq_foldl_flat (v : Bool) (mapping : List (List Entry)) :
    mergeColmap v mapping
      = (mapping.flatMap (fun m => m)).foldl (mergeStep v) (.ok []) := by
  unfold mergeColmap
  generalize (Except.ok [] : Except String ColMap) = acc
  induction mapping generalizing acc with
  | nil => rfl
  | cons m ms ih =>
    rw [List.foldl_cons, List.flatMap_cons, List.foldl_append]
    exact ih _

lemma mergeFoldl_ok_all : ∀ (l : List Entry) (cm0 cm : ColMap),
    l.foldl (mergeStep true) (.ok cm0) = .ok cm →
    ∀ p : Entry, (p ∈ l ∨ lookupA cm0 p.1 = some p.2) → lookupA cm p.1 = some p.2 := by
  intro l
  induction l with
  | nil =>
    intro cm0 cm h p hp
    cases h
    rcases hp with hp | hp
    · cases hp
    · exact hp
  | cons kv rest ih =>
    intro cm0 cm h p hp
    rw [List.foldl_cons] at h
    cases hstep : mergeStep true (.ok cm0) kv with
    | error e => rw [hstep, mergeFoldl_error] at h; cases h
    | ok cm1 =>
      rw [hstep] at h
      have hins : cm1 = dictInsert cm0 kv.1 kv.2 := mergeStep_ok_inv hstep
      refine ih cm1 cm h p ?_
      rcases hp with hp | hp
      · rcases List.mem_cons.mp hp with rfl | hp'
        · right
          rw [hins, lookupA_dictInsert, if_pos rfl]
        · exact Or.inl hp'
      · right
        rw [hins, lookupA_dictInsert]
        by_cases hpk : p.1 = kv.1
        · rw [if_pos hpk]
          have hv0 : lookupA cm0 kv.1 = some p.2 := hpk ▸ hp
          rw [mergeStep_true_ok_consistent hstep hv0]
        · rw [if_neg hpk]
          exact hp

lemma mergeFoldl_nodup_keys : ∀ (v : Bool) (l : List Entry) (cm0 cm : ColMap),
    l.foldl (mergeStep v) (.ok cm0) = .ok cm →
    (cm0.map (fun p => p.1)).Nodup → (cm.map (fun p => p.1)).Nodup := by
  intro v l
  induction l with
  | nil =>
    intro cm0 cm h hnd
    cases h
    exact hnd
  | cons kv rest ih =>
    intro cm0 cm h hnd
    rw [List.foldl_cons] at h
    cases hstep : mergeStep v (.ok cm0) kv with
    | error e => rw [hstep, mergeFoldl_error] at h; cases h
    | ok cm1 =>
      rw [hstep] at h
      refine ih cm1 cm h ?_
      rw [mergeStep_ok_inv hstep]
      exact nodup_keys_dictInsert hnd

lemma mergeFoldl_false_ok : ∀ (l : List Entry) (cm0 : ColMap),
    l.foldl (mergeStep false) (.ok cm0)
      = .ok (l.foldl (fun cm kv => dictInsert cm kv.1 kv.2) cm0) := by
  intro l
  induction l with
  | nil => intro cm0; rfl
  | cons kv rest ih =>
    intro cm0
    rw [List.foldl_cons, List.foldl_cons]
    have hstep : mergeStep false (.ok cm0) kv = .ok (dictInsert cm0 kv.1 kv.2) := by
      dsimp only [mergeStep]
      cases hl : lookupA cm0 kv.1 with
      | none => rfl
      | some v0 => simp
    rw [hstep]
    exact ih _

lemma lookupA_foldl_dictInsert : ∀ (l : List Entry) (cm0 : ColMap) (k : String),
    lookupA (l.foldl (fun cm kv => dictInsert cm kv.1 kv.2) cm0) k
      = (match lastAssigned l k with
         | some v => some v
         | none => lookupA cm0 k) := by
  intro l
  induction l with
  | nil => intro cm0 k; rfl
  | cons kv rest ih =>
    intro cm0 k
    rw [List.foldl_cons, ih]
    show _ = (match lastAssigned (kv :: rest) k with
              | some v => some v
              | none => lookupA cm0 k)
    dsimp only [lastAssigned]
    cases hl : lastAssigned rest k with
    | some v => rfl
    | none =>
      dsimp only
      rw [lookupA_dictInsert]
      by_cases hk : kv.1 = k
      · rw [if_pos hk, if_pos hk.symm]
      · rw [if_neg hk, if_neg (fun h => hk h.symm)]

lemma mergeFoldl_error_inv : ∀ (l : List Entry) (cm0 : ColMap) (msg : String)
    (P : List Entry),
    l.foldl (mergeStep true) (.ok cm0) = .error msg →
    (∀ p ∈ cm0, p ∈ P) → (∀ p ∈ l, p ∈ P) →
    ∃ k v1 v2, msg = conflictMsg k v1 v2 ∧ v1 ≠ v2 ∧ (k, v1) ∈ P ∧ (k, v2) ∈ P := by
  intro l
  induction l with
  | nil =>
    intro cm0 msg P h _ _
    cases h
  | cons kv rest ih =>
    intro cm0 msg P h hcm0 hl
    rw [List.foldl_cons] at h
    cases hstep : mergeStep true (.ok cm0) kv with
    | ok cm1 =>
      rw [hstep] at h
      refine ih cm1 msg P h (fun p hp => ?_) (fun p hp => hl p (List.mem_cons_of_mem _ hp))
      rcases dictInsert_mem (mergeStep_ok_inv hstep ▸ hp) with h2 | h2
      · exact hcm0 p h2
      · subst h2
        rw [Prod.mk.eta]
        exact hl kv (List.mem_cons_self _ _)
    | error e =>
      rw [hstep, mergeFoldl_error] at h
      cases h
      rcases mergeStep_error_inv hstep with ⟨v0, hv0, hne, rfl⟩
      refine ⟨kv.1, v0, kv.2, rfl, hne, ?_, ?_⟩
      · exact hcm0 _ (lookupA_some_mem hv0)
      · rw [Prod.mk.eta]
        exact hl kv (List.mem_cons_self _ _)

lemma flatMap_nil_of_all_nil {mapping : List (List Entry)}
    (h : ∀ m ∈ mapping, m = []) : mapping.flatMap (fun m => m) = [] := by
  induction mapping with
  | nil => rfl
  | cons m ms ih =>
    rw [List.flatMap_cons, h m (List.mem_cons_self _ _),
      ih (fun m' hm' => h m' (List.mem_cons_of_mem _ hm'))]
    rfl

lemma firstNotIn_some_of_absent : ∀ {cols l : List String} {c : String},
    c ∈ l → c ∉ cols →
    ∃ c', firstNotIn cols l = some c' ∧ c' ∈ l ∧ c' ∉ cols := by
  intro cols l
  induction l with
  | nil => intro c h; cases h
  | cons x rest ih =>
    intro c hc hnc
    by_cases hx : x ∈ cols
    · rcases List.mem_cons.mp hc with rfl | hc'
      · exact absurd hx hnc
      · rcases ih hc' hnc with ⟨c', h1, h2, h3⟩
        exact ⟨c', by simp [firstNotIn, hx, h1], List.mem_cons_of_mem _ h2, h3⟩
    · exact ⟨x, by simp [firstNotIn, hx], List.mem_cons_self _ _, hx⟩

/-! Theorems about the merge step of `convert` (claims about conflict and
emptiness handling). -/

/-- Claim C4: an association sequence assigning one source column two
different targets makes the validated merge fail with a conflict error naming
a conflicting column together with both of its targets, while the unvalidated
merge succeeds and resolves every source column to its last assigned target
(last-write-wins). -/
theorem claim_C4_merge_conflict_semantics (mapping : List (List Entry))
    (k : String) (v1 v2 : Target)
    (h1 : (k, v1) ∈ mapping.flatMap (fun m => m))
    (h2 : (k, v2) ∈ mapping.flatMap (fun m => m))
    (hne : v1 ≠ v2) :
    (∃ k' va vb, mergeColmap true mapping = .error (conflictMsg k' va vb) ∧
      va ≠ vb ∧ (k', va) ∈ mapping.flatMap (fun m => m) ∧
      (k', vb) ∈ mapping.flatMap (fun m => m))
    ∧ (∃ cm, mergeColmap false mapping = .ok cm ∧
        ∀ s, lookupA cm s = lastAssigned (mapping.flatMap (fun m => m)) s) := by
  constructor
  · cases hres : mergeColmap true mapping with
    | ok cm =>
      exfalso
      rw [mergeColmap_eq_foldl_flat] at hres
      have e1 := mergeFoldl_ok_all _ [] cm hres (k, v1) (Or.inl h1)
      have e2 := mergeFoldl_ok_all _ [] cm hres (k, v2) (Or.inl h2)
      rw [e1] at e2
      exact hne (Option.some.inj e2)
    | error msg =>
      have hres' := hres
      rw [mergeColmap_eq_foldl_flat] at hres'
      rcases mergeFoldl_error_inv _ [] msg _ hres'
          (by intro p hp; cases hp) (fun p hp => hp) with ⟨k', va, vb, rfl, hnab, ha, hb⟩
      exact ⟨k', va, vb, rfl, hnab, ha, hb⟩
  · rw [mergeColmap_eq_foldl_flat, mergeFoldl_false_ok]
    refine ⟨_, rfl, fun s => ?_⟩
    rw [lookupA_foldl_dictInsert]
    cases lastAssigned (mapping.flatMap (fun m => m)) s with
    | some v => rfl
    | none => rfl

/-- Witness for claim C4 at a concrete conflicting sequence. -/
theorem claim_C4_witness :
    (("s", (("a", "b") : Target)) ∈
        ([[("s", ("a", "b"))], [("s", ("a", "c"))]] : List (List Entry)).flatMap (fun m => m))
    ∧ (("s", (("a", "c") : Target)) ∈
        ([[("s", ("a", "b"))], [("s", ("a", "c"))]] : List (List Entry)).flatMap (fun m => m))
    ∧ ((("a", "b") : Target) ≠ ("a", "c"))
    ∧ ((∃ k' va vb,
        mergeColmap true [[("s", ("a", "b"))], [("s", ("a", "c"))]]
          = .error (conflictMsg k' va vb) ∧ va ≠ vb ∧
        (k', va) ∈ ([[("s", ("a", "b"))], [("s", ("a", "c"))]] : List (List Entry)).flatMap (fun m => m) ∧
        (k', vb) ∈ ([[("s", ("a", "b"))], [("s", ("a", "c"))]] : List (List Entry)).flatMap (fun m => m))
      ∧ (∃ cm, mergeColmap false [[("s", ("a", "b"))], [("s", ("a", "c"))]] = .ok cm ∧
          ∀ s, lookupA cm s
            = lastAssigned (([[("s", ("a", "b"))], [("s", ("a", "c"))]] : List (List Entry)).flatMap (fun m => m)) s)) :=
  ⟨by decide, by decide, by decide,
    claim_C4_merge_conflict_semantics _ "s" ("a", "b") ("a", "c")
      (by decide) (by decide) (by decide)⟩

/-- Claim C7: a mapping with no associations makes `convert` fail with the
emptiness error in validated and unvalidated mode alike. -/
theorem claim_C7_empty_mapping_always_fails [LinearOrder α] (df : DF α)
    (idCols : List String) (mapping : List (List Entry)) (validate : Bool)
    (h : ∀ m ∈ mapping, m = []) :
    convert df idCols mapping validate = .error emptyMsg := by
  have hm : mergeColmap validate mapping = .ok [] := by
    rw [mergeColmap_eq_foldl_flat, flatMap_nil_of_all_nil h]
    rfl
  unfold convert
  rw [hm]
  rfl

/-- Witness for claim C7 on a concrete table in both modes. -/
theorem claim_C7_witness :
    (∀ m ∈ ([[], []] : List (List Entry)), m = [])
    ∧ convert (⟨["id"], [[some 1]]⟩ : DF Nat) ["id"] [[], []] true = .error emptyMsg
    ∧ convert (⟨["id"], [[some 1]]⟩ : DF Nat) ["id"] [[], []] false = .error emptyMsg :=
  ⟨by decide,
    claim_C7_empty_mapping_always_fails _ _ _ true (by decide),
    claim_C7_empty_mapping_always_fails _ _ _ false (by decide)⟩

/-- Claim C6: in validated mode a mapped source column absent from the table
makes `convert` fail with one error listing all absent source columns, and —
when all source columns are present — an absent id column makes it fail with
the id-column error. -/
theorem claim_C6_validated_existence_checks [LinearOrder α] (df : DF α)
    (idCols : List String) (mapping : List (List Entry)) (cm : ColMap)
    (hm : mergeColmap true mapping = .ok cm) (hne : cm ≠ []) :
    (∀ s ∈ cm.map (fun p => p.1), s ∉ df.cols →
      convert df idCols mapping true
        = .error (missingColsMsg
            ((cm.map (fun p => p.1)).filter (fun x => decide (x ∉ df.cols)))))
    ∧ (∀ c ∈ idCols, c ∉ df.cols →
        (∀ s ∈ cm.map (fun p => p.1), s ∈ df.cols) →
        ∃ c', c' ∈ idCols ∧ c' ∉ df.cols ∧
          convert df idCols mapping true = .error (missingIdMsg c')) := by
  constructor
  · intro s hs hsn
    have hmiss : (cm.map (fun p => p.1)).filter (fun x => decide (x ∉ df.cols)) ≠ [] :=
      List.ne_nil_of_mem (List.mem_filter.mpr ⟨hs, by simpa using hsn⟩)
    have hsc : sanityChecks df idCols cm true
        = .error (missingColsMsg
            ((cm.map (fun p => p.1)).filter (fun x => decide (x ∉ df.cols)))) := by
      unfold sanityChecks
      rw [if_pos rfl]
      dsimp only
      rw [if_pos hmiss]
    unfold convert
    rw [hm]
    dsimp only
    rw [if_neg hne, hsc]
  · intro c hc hcn hall
    have hmiss : (cm.map (fun p => p.1)).filter (fun x => decide (x ∉ df.cols)) = [] := by
      rw [List.filter_eq_nil_iff]
      intro x hx
      simp only [decide_eq_true_eq]
      exact fun hn => hn (hall x hx)
    rcases firstNotIn_some_of_absent hc hcn with ⟨c', h1, h2, h3⟩
    refine ⟨c', h2, h3, ?_⟩
    have hsc : sanityChecks df idCols cm true = .error (missingIdMsg c') := by
      unfold sanityChecks
      rw [if_pos rfl]
      dsimp only
      rw [if_neg (fun hcon => hcon hmiss), h1]
    unfold convert
    rw [hm]
    dsimp only
    rw [if_neg hne, hsc]

/-- Witness for claim C6 at concrete inputs triggering both checks. -/
theorem claim_C6_witness :
    (convert (⟨["id", "s"], [[some 1, some 2]]⟩ : DF Nat) ["id"]
        [[("s", ("a", "b"))], [("zz", ("a", "c"))], [("ww", ("q", "r"))]] true
      = .error (missingColsMsg ["zz", "ww"]))
    ∧ (∃ c', c' ∈ ["nope"] ∧ c' ∉ (⟨["id", "s"], [[some 1, some 2]]⟩ : DF Nat).cols ∧
        convert (⟨["id", "s"], [[some 1, some 2]]⟩ : DF Nat) ["nope"]
          [[("s", ("a", "b"))]] true = .error (missingIdMsg c')) := by
  constructor
  · have h := (claim_C6_validated_existence_checks
      (⟨["id", "s"], [[some 1, some 2]]⟩ : DF Nat) ["id"]
      [[("s", ("a", "b"))], [("zz", ("a", "c"))], [("ww", ("q", "r"))]]
      [("s", ("a", "b")), ("zz", ("a", "c")), ("ww", ("q", "r"))]
      (by decide) (by decide)).1 "zz" (by decide) (by decide)
    exact h
  · exact (claim_C6_validated_existence_checks
      (⟨["id", "s"], [[some 1, some 2]]⟩ : DF Nat) ["nope"]
      [[("s", ("a", "b"))]] [("s", ("a", "b"))]
      (by decide) (by decide)).2 "nope" (by decide) (by decide) (by decide)

/-! Inversion of the success path of `convert`, and structural lemmas about
the pivot stages. -/

lemma convert_ok_inv [LinearOrder α] {df : DF α} {idCols : List String}
    {mapping : List (List Entry)} {validate : Bool} {out : LongDF α}
    (h : convert df idCols mapping validate = .ok out) :
    ∃ cm, mergeColmap validate mapping = .ok cm ∧ cm ≠ [] ∧
      out = pivotFirst idCols
        (tagRowsOf (meltRows df (dfHcolsOf df cm) idCols (valueVarsOf cm))) := by
  unfold convert at h
  cases hm : mergeColmap validate mapping with
  | error e => rw [hm] at h; cases h
  | ok cm =>
    rw [hm] at h
    dsimp only at h
    by_cases hne : cm = []
    · rw [if_pos hne] at h; cases h
    · rw [if_neg hne] at h
      cases hs : sanityChecks df idCols cm validate with
      | error e => rw [hs] at h; cases h
      | ok u =>
        cases u
        rw [hs] at h
        dsimp only at h
        cases hg : meltGuard (dfHcolsOf df cm) idCols (valueVarsOf cm) with
        | error e => rw [hg] at h; cases h
        | ok u =>
          cases u
          rw [hg] at h
          exact ⟨cm, rfl, hne, (Except.ok.inj h).symm⟩

lemma mem_sortedKeysOf [LinearOrder α] {filtered : List (PKey α × Option α)}
    {k : PKey α} : k ∈ sortedKeysOf filtered ↔ k ∈ filtered.map (fun f => f.1) := by
  unfold sortedKeysOf
  rw [(List.perm_insertionSort _ _).mem_iff, mem_dedupF]

lemma survivors_key_spec [LinearOrder α] {filtered : List (PKey α × Option α)}
    {s : PKey α × α} (hs : s ∈ survivorsOf filtered) :
    s.1 ∈ filtered.map (fun f => f.1) ∧ firstVal filtered s.1 = some s.2 := by
  unfold survivorsOf at hs
  rcases List.mem_filterMap.mp hs with ⟨kv, hkv, hmap⟩
  rcases List.mem_map.mp hkv with ⟨k, hk, rfl⟩
  rcases Option.map_eq_some'.mp hmap with ⟨v, hv, hsv⟩
  cases hsv
  refine ⟨?_, ?_⟩
  · show k ∈ _
    exact mem_sortedKeysOf.mp hk
  · show firstVal filtered k = some v
    exact hv

lemma survivors_mem_of [LinearOrder α] {filtered : List (PKey α × Option α)}
    {k : PKey α} {v : α} (hk : k ∈ filtered.map (fun f => f.1))
    (hv : firstVal filtered k = some v) : (k, v) ∈ survivorsOf filtered := by
  unfold survivorsOf
  refine List.mem_filterMap.mpr ⟨(k, firstVal filtered k), ?_, ?_⟩
  · exact List.mem_map.mpr ⟨k, mem_sortedKeysOf.mpr hk, rfl⟩
  · rw [hv]
    rfl

lemma filtered_key_inv {tagged : List (List (Option α) × (String × Option String) × Option α)}
    {k : PKey α} (hk : k ∈ (filteredOf tagged).map (fun f => f.1)) :
    ∃ tr ∈ tagged, allSome tr.1 = some k.1 ∧ tr.2.1.1 = k.2.1 ∧
      tr.2.1.2 = some k.2.2 := by
  rcases List.mem_map.mp hk with ⟨f, hf, rfl⟩
  unfold filteredOf at hf
  rcases List.mem_filterMap.mp hf with ⟨tr, htr, hmap⟩
  cases hids : allSome tr.1 with
  | none => rw [hids] at hmap; cases hmap
  | some ids =>
    cases hc : tr.2.1.2 with
    | none => rw [hids, hc] at hmap; cases hmap
    | some c =>
      rw [hids, hc] at hmap
      cases hmap
      exact ⟨tr, htr, hids, rfl, hc⟩

lemma filtered_mem_of {tagged : List (List (Option α) × (String × Option String) × Option α)}
    {tr : List (Option α) × (String × Option String) × Option α} {ids : List α} {c : String}
    (htr : tr ∈ tagged) (hids : allSome tr.1 = some ids) (hc : tr.2.1.2 = some c) :
    ((ids, tr.2.1.1, c), tr.2.2) ∈ filteredOf tagged := by
  unfold filteredOf
  refine List.mem_filterMap.mpr ⟨tr, htr, ?_⟩
  rw [hids, hc]

lemma tagged_mem_iff {melted : List (List (Option α) × String × Option α)}
    {tr : List (Option α) × (String × Option String) × Option α} :
    tr ∈ tagRowsOf melted ↔
      ∃ m ∈ melted, tr = (m.1, split1 (stripHead m.2.1), m.2.2) := by
  unfold tagRowsOf
  rw [List.mem_map]
  constructor
  · rintro ⟨m, hm, rfl⟩
    exact ⟨m, hm, rfl⟩
  · rintro ⟨m, hm, rfl⟩
    exact ⟨m, hm, rfl⟩

lemma melted_mem_inv {df : DF α} {dfHcols idCols valueVars : List String}
    {m : List (Option α) × String × Option α}
    (hm : m ∈ meltRows df dfHcols idCols valueVars) :
    m.2.1 ∈ valueVars ∧
      ∃ p r, r ∈ df.rows ∧ p < dfHcols.length ∧ dfHcols.getD p "" = m.2.1 ∧
        m.1 = idCols.map (fun c => cellAt dfHcols r c) ∧ m.2.2 = r.getD p none := by
  unfold meltRows at hm
  rcases List.mem_flatMap.mp hm with ⟨p, hp, hrow⟩
  rcases List.mem_map.mp hrow with ⟨r, hr, rfl⟩
  rw [mem_dedupF] at hp
  rcases List.mem_flatMap.mp hp with ⟨t, ht, hpos⟩
  rcases mem_positionsOf.mp hpos with ⟨hlen, hlbl⟩
  refine ⟨?_, p, r, hr, hlen, rfl, rfl, rfl⟩
  show dfHcols.getD p "" ∈ valueVars
  rw [hlbl]
  exact ht

lemma melted_mem_of {df : DF α} {dfHcols : List String}
    (idCols valueVars : List String)
    {p : Nat} {r : List (Option α)} (hr : r ∈ df.rows) (hlen : p < dfHcols.length)
    (ht : dfHcols.getD p "" ∈ valueVars) :
    (idCols.map (fun c => cellAt dfHcols r c), dfHcols.getD p "", r.getD p none)
      ∈ meltRows df dfHcols idCols valueVars := by
  unfold meltRows
  refine List.mem_flatMap.mpr ⟨p, ?_, ?_⟩
  · rw [mem_dedupF]
    exact List.mem_flatMap.mpr ⟨dfHcols.getD p "", ht, mem_positionsOf.mpr ⟨hlen, rfl⟩⟩
  · exact List.mem_map.mpr ⟨r, hr, rfl⟩

lemma valueVars_mem_inv {cm : ColMap} {t : String} (ht : t ∈ valueVarsOf cm) :
    ∃ p ∈ cm, t = helperName p.2.1 p.2.2 := by
  unfold valueVarsOf helperMapOf at ht
  rw [List.map_map] at ht
  rcases List.mem_map.mp ht with ⟨p, hp, rfl⟩
  exact ⟨p, hp, rfl⟩

lemma valueVars_mem_of {cm : ColMap} {p : Entry} (hp : p ∈ cm) :
    helperName p.2.1 p.2.2 ∈ valueVarsOf cm := by
  unfold valueVarsOf helperMapOf
  rw [List.map_map]
  exact List.mem_map.mpr ⟨p, hp, rfl⟩

/-! Parsing of helper labels: `split1 (stripHead (helperName e v))` recovers
`(e, v)` whenever the element contains no bar. -/

lemma string_mk_data (s : String) : String.mk s.data = s := by
  cases s
  rfl

lemma helperName_data (e v : String) :
    (helperName e v).data = "__H__".data ++ (e.data ++ '|' :: v.data) := by
  show ((("__H__" ++ e) ++ "|") ++ v).data = _
  have happ : ∀ a b : String, (a ++ b).data = a.data ++ b.data := fun a b => rfl
  rw [happ, happ, happ]
  simp [List.append_assoc]

lemma stripHead_helperName (e v : String) :
    stripHead (helperName e v) = String.mk (e.data ++ '|' :: v.data) := by
  unfold stripHead
  rw [helperName_data]
  have h5 : (5 : Nat) = ("__H__".data).length := rfl
  rw [h5, List.take_left, List.drop_left, if_pos rfl]

lemma splitBar_no_bar_append {e : List Char} (hbar : '|' ∉ e) (v : List Char) :
    splitBar (e ++ '|' :: v) = some (e, v) := by
  induction e with
  | nil => simp [splitBar]
  | cons c cs ih =>
    have hc : ¬(c = '|') := fun h => hbar (h ▸ List.mem_cons_self _ _)
    have hcs : '|' ∉ cs := fun h => hbar (List.mem_cons_of_mem _ h)
    simp only [List.cons_append, splitBar, if_neg hc]
    show (splitBar (cs ++ '|' :: v)).map (fun p => (c :: p.1, p.2)) = some (c :: cs, v)
    rw [ih hcs]
    rfl

lemma split1_helperName {e v : String} (hbar : '|' ∉ e.data) :
    split1 (stripHead (helperName e v)) = (e, some v) := by
  rw [stripHead_helperName]
  unfold split1
  rw [show (String.mk (e.data ++ '|' :: v.data)).data = e.data ++ '|' :: v.data from rfl]
  rw [splitBar_no_bar_append hbar]

lemma helperName_inj {e1 v1 e2 v2 : String} (h1 : '|' ∉ e1.data)
    (h2 : '|' ∉ e2.data) (he : helperName e1 v1 = helperName e2 v2) :
    e1 = e2 ∧ v1 = v2 := by
  have p1 := split1_helperName (v := v1) h1
  have p2 := split1_helperName (v := v2) h2
  rw [he, p2] at p1
  exact ⟨(Prod.ext_iff.mp p1).1.symm,
    Option.some.inj (Prod.ext_iff.mp p1).2 |>.symm⟩

/-! Structure of the output rows: the row keys, their uniqueness and order. -/

lemma pivotFirst_rows_keys [LinearOrder α] (idCols : List String)
    (tagged : List (List (Option α) × (String × Option String) × Option α)) :
    (pivotFirst idCols tagged).rows.map (fun r => (r.1, r.2.1))
      = rowKeysOf (survivorsOf (filteredOf tagged)) := by
  unfold pivotFirst
  dsimp only
  rw [List.map_map]
  refine Eq.trans (List.map_congr_left ?_) (List.map_id _)
  intro rk _
  rfl

lemma survivors_pairwise [LinearOrder α] (filtered : List (PKey α × Option α)) :
    (survivorsOf filtered).Pairwise (fun s s' => pkeyLeB s.1 s'.1 = true) := by
  unfold survivorsOf
  refine pairwise_filterMap (S := fun kv kv' => pkeyLeB kv.1 kv'.1 = true) _ ?_ ?_
  · intro a b x y hS ha hb
    rcases Option.map_eq_some'.mp ha with ⟨va, _, hxa⟩
    rcases Option.map_eq_some'.mp hb with ⟨vb, _, hyb⟩
    cases hxa
    cases hyb
    exact hS
  · rw [List.pairwise_map]
    haveI : IsTotal (PKey α) (fun k k' => pkeyLeB k k' = true) := ⟨pkeyLeB_total⟩
    haveI : IsTrans (PKey α) (fun k k' => pkeyLeB k k' = true) :=
      ⟨fun _ _ _ => pkeyLeB_trans⟩
    exact List.sorted_insertionSort _ _

lemma rowKeys_pairwise_lt [LinearOrder α] (filtered : List (PKey α × Option α)) :
    (rowKeysOf (survivorsOf filtered)).Pairwise (fun a b => rkeyLtB a b = true) := by
  have h1 : ((survivorsOf filtered).map (fun s => (s.1.1, s.1.2.1))).Pairwise
      (fun a b => rkeyLeB a b = true) := by
    rw [List.pairwise_map]
    exact (survivors_pairwise filtered).imp (fun h => rkeyLeB_of_pkeyLeB h)
  have h2 := List.Pairwise.sublist (dedupF_sublist _) h1
  have h3 : (dedupF ((survivorsOf filtered).map (fun s => (s.1.1, s.1.2.1)))).Pairwise
      (fun a b : RKey α => a ≠ b) := nodup_dedupF _
  unfold rowKeysOf
  exact (h2.and h3).imp (fun h => rkeyLtB_of_leB_ne h.1 h.2)

/-- Claim C3: on every successful conversion the pair (identifier values,
element) is unique across the output rows. -/
theorem claim_C3_row_key_uniqueness [LinearOrder α] (df : DF α)
    (idCols : List String) (mapping : List (List Entry)) (validate : Bool)
    (out : LongDF α) (h : convert df idCols mapping validate = .ok out) :
    (out.rows.map (fun r => (r.1, r.2.1))).Nodup := by
  rcases convert_ok_inv h with ⟨cm, _, _, rfl⟩
  rw [pivotFirst_rows_keys]
  unfold rowKeysOf
  exact nodup_dedupF _

/-- Witness for claim C3 on a concrete conversion. -/
theorem claim_C3_witness :
    (convert (⟨["id", "x"], [[some 1, some 5], [some 1, some 6]]⟩ : DF Nat) ["id"]
        [[("x", ("e", "v"))]] true
      = .ok ⟨["id"], ["v"], [([1], "e", [some 5])]⟩)
    ∧ (((⟨["id"], ["v"], [([1], "e", [some 5])]⟩ : LongDF Nat).rows.map
        (fun r => (r.1, r.2.1))).Nodup) :=
  ⟨by decide,
    claim_C3_row_key_uniqueness
      (⟨["id", "x"], [[some 1, some 5], [some 1, some 6]]⟩ : DF Nat) ["id"]
      [[("x", ("e", "v"))]] true _ (by decide)⟩

/-- Claim C9 (amended): on every successful conversion the output rows are
sorted strictly lexicographically by (identifier values, element) — the
`sort=True` default of `pivot_table` — not by first appearance. -/
theorem claim_C9_rows_sorted [LinearOrder α] (df : DF α) (idCols : List String)
    (mapping : List (List Entry)) (validate : Bool) (out : LongDF α)
    (h : convert df idCols mapping validate = .ok out) :
    (out.rows.map (fun r => (r.1, r.2.1))).Pairwise
      (fun a b => rkeyLtB a b = true) := by
  rcases convert_ok_inv h with ⟨cm, _, _, rfl⟩
  rw [pivotFirst_rows_keys]
  exact rowKeys_pairwise_lt _

/-- Witness for claim C9 (amended) on a concrete conversion. -/
theorem claim_C9_witness :
    (convert (⟨["id", "x"], [[some 2, some 5], [some 1, some 6]]⟩ : DF Nat) ["id"]
        [[("x", ("e", "v"))]] true
      = .ok ⟨["id"], ["v"], [([1], "e", [some 6]), ([2], "e", [some 5])]⟩)
    ∧ (((⟨["id"], ["v"], [([1], "e", [some 6]), ([2], "e", [some 5])]⟩ : LongDF Nat).rows.map
        (fun r => (r.1, r.2.1))).Pairwise (fun a b => rkeyLtB a b = true)) :=
  ⟨by decide,
    claim_C9_rows_sorted
      (⟨["id", "x"], [[some 2, some 5], [some 1, some 6]]⟩ : DF Nat) ["id"]
      [[("x", ("e", "v"))]] true _ (by decide)⟩

/-- Counterexample to claim C9 as stated: identifier value 2 appears first in
the input, yet the output lists the row of identifier value 1 first — the rows
are sorted, not ordered by first appearance in the input. -/
theorem claim_C9_counterexample :
    ((⟨["id", "x"], [[some 2, some 5], [some 1, some 6]]⟩ : DF Nat).rows.map
        (fun r => r.getD 0 none) = [some 2, some 1])
    ∧ (convert (⟨["id", "x"], [[some 2, some 5], [some 1, some 6]]⟩ : DF Nat) ["id"]
        [[("x", ("e", "v"))]] true
      = .ok ⟨["id"], ["v"], [([1], "e", [some 6]), ([2], "e", [some 5])]⟩)
    ∧ ¬((⟨["id"], ["v"], [([1], "e", [some 6]), ([2], "e", [some 5])]⟩ : LongDF Nat).rows.map
        (fun r => r.1) = [[2], [1]]) := by
  refine ⟨by decide, by decide, by decide⟩

lemma getD_map_lt {f : β → γ} {l : List β} {i : Nat} (hi : i < l.length)
    (d : γ) (d' : β) : (l.map f).getD i d = f (l.getD i d') := by
  rw [List.getD_eq_getElem?_getD, List.getElem?_map, List.getD_eq_getElem?_getD,
    List.getElem?_eq_getElem hi]
  rfl

lemma lookupVal_eq_none [DecidableEq α] {survivors : List (PKey α × α)}
    {k : PKey α} (h : ∀ s ∈ survivors, s.1 ≠ k) : lookupVal survivors k = none := by
  induction survivors with
  | nil => rfl
  | cons s rest ih =>
    simp only [lookupVal, if_neg (h s (List.mem_cons_self _ _))]
    exact ih (fun s' hs' => h s' (List.mem_cons_of_mem _ hs'))

lemma mergeColmap_sub {validate : Bool} {mapping : List (List Entry)} {cm : ColMap}
    (hm : mergeColmap validate mapping = .ok cm) :
    ∀ p ∈ cm, p ∈ mapping.flatMap (fun m => m) := by
  rw [mergeColmap_eq_foldl_flat] at hm
  intro p hp
  rcases mergeFoldl_ok_sub _ _ [] cm hm p hp with h | h
  · cases h
  · exact h

/-- Every group key of the pivot comes from a mapped pair: its element and
variable components form a target of the merged mapping, provided no mapped
element contains a bar. -/
lemma filtered_key_mapped [LinearOrder α] {df : DF α} {idCols : List String}
    {cm : ColMap} {k : PKey α}
    (hbar : ∀ p ∈ cm, '|' ∉ (p.2.1 : String).data)
    (hk : k ∈ ((filteredOf (tagRowsOf
        (meltRows df (dfHcolsOf df cm) idCols (valueVarsOf cm)))).map (fun f => f.1))) :
    (k.2.1, k.2.2) ∈ cm.map (fun p => p.2) := by
  rcases filtered_key_inv hk with ⟨tr, htr, _, hel, hvar⟩
  rcases tagged_mem_iff.mp htr with ⟨m, hm, rfl⟩
  rcases (melted_mem_inv hm).1 |> valueVars_mem_inv with ⟨p, hp, hlbl⟩
  have hsplit := split1_helperName (v := p.2.2) (hbar p hp)
  rw [← hlbl] at hsplit
  have hel' : p.2.1 = k.2.1 := by
    rw [show (m.1, split1 (stripHead m.2.1), m.2.2).2.1.1
          = (split1 (stripHead m.2.1)).1 from rfl, hsplit] at hel
    exact hel
  have hvar' : p.2.2 = k.2.2 := by
    rw [show (m.1, split1 (stripHead m.2.1), m.2.2).2.1.2
          = (split1 (stripHead m.2.1)).2 from rfl, hsplit] at hvar
    exact Option.some.inj hvar
  rw [← hel', ← hvar']
  exact List.mem_map.mpr ⟨p, hp, rfl⟩

/-- Claim C1 (amended): provided no element id in the mapping contains a bar
character (the separator of the internal helper encoding), every variable cell
of an output row whose (element, variable name) pair is not among the
mapping associations is the missing value `none`. -/
theorem claim_C1_unmapped_cells_missing [LinearOrder α] (df : DF α)
    (idCols : List String) (mapping : List (List Entry)) (validate : Bool)
    (out : LongDF α)
    (hbar : ∀ p ∈ mapping.flatMap (fun m => m), '|' ∉ (p.2.1 : String).data)
    (h : convert df idCols mapping validate = .ok out) :
    ∀ r ∈ out.rows, ∀ c ∈ out.varCols,
      (r.2.1, c) ∉ (mapping.flatMap (fun m => m)).map (fun p => p.2) →
      cellOfRow out r c = none := by
  rcases convert_ok_inv h with ⟨cm, hm, _, rfl⟩
  intro r hr c hc hnot
  have hbar' : ∀ p ∈ cm, '|' ∉ (p.2.1 : String).data :=
    fun p hp => hbar p (mergeColmap_sub hm p hp)
  unfold pivotFirst at hr hc ⊢
  dsimp only at hr hc ⊢
  rcases List.mem_map.mp hr with ⟨rk, hrk, rfl⟩
  unfold cellOfRow
  dsimp only
  rcases idxOf?_mem hc with ⟨i, hi⟩
  rcases idxOf?_spec hi with ⟨hilen, hival⟩
  rw [hi]
  dsimp only
  rw [getD_map_lt hilen none ""]
  rw [hival]
  refine lookupVal_eq_none (fun s hs hk => ?_)
  have hmapped := filtered_key_mapped hbar' ((survivors_key_spec hs).1)
  rw [hk] at hmapped
  refine hnot ?_
  rcases List.mem_map.mp hmapped with ⟨p, hp, hpe⟩
  exact List.mem_map.mpr ⟨p, mergeColmap_sub hm p hp, hpe⟩

/-- Witness for claim C1 (amended) on a concrete conversion: the pair
(l1, pre) is unmapped, so the cell of column pre in the row of element l1 is
missing. -/
theorem claim_C1_witness :
    (convert (⟨["id", "a", "b"], [[some 1, some 5, some 6]]⟩ : DF Nat) ["id"]
        [[("a", ("i1", "pre"))], [("b", ("l1", "k1"))]] true
      = .ok ⟨["id"], ["k1", "pre"],
          [([1], "i1", [none, some 5]), ([1], "l1", [some 6, none])]⟩)
    ∧ (("l1", "pre") ∉
        (([[("a", ("i1", "pre"))], [("b", ("l1", "k1"))]] : List (List Entry)).flatMap
          (fun m => m)).map (fun p => p.2))
    ∧ (cellOfRow
        (⟨["id"], ["k1", "pre"],
          [([1], "i1", [none, some 5]), ([1], "l1", [some 6, none])]⟩ : LongDF Nat)
        ([1], "l1", [some 6, none]) "pre" = none) :=
  ⟨by decide, by decide,
    claim_C1_unmapped_cells_missing
      (⟨["id", "a", "b"], [[some 1, some 5, some 6]]⟩ : DF Nat) ["id"]
      [[("a", ("i1", "pre"))], [("b", ("l1", "k1"))]] true _
      (by decide) (by decide)
      ([1], "l1", [some 6, none]) (by decide) "pre" (by decide) (by decide)⟩

/-- Counterexample to claim C1 as stated: with the element id `a|b` the helper
encoding mis-parses, the output holds element `a` and variable column `b|c`,
and the cell of the unmapped pair (a, b|c) carries the source value instead of
being missing. -/
theorem claim_C1_counterexample :
    (convert (⟨["id", "s"], [[some 1, some 5]]⟩ : DF Nat) ["id"]
        [[("s", ("a|b", "c"))]] true
      = .ok ⟨["id"], ["b|c"], [([1], "a", [some 5])]⟩)
    ∧ (("a", "b|c") ∉
        (([[("s", ("a|b", "c"))]] : List (List Entry)).flatMap (fun m => m)).map
          (fun p => p.2))
    ∧ (cellOfRow (⟨["id"], ["b|c"], [([1], "a", [some 5])]⟩ : LongDF Nat)
        ([1], "a", [some 5]) "b|c" = some 5) := by
  refine ⟨by decide, by decide, by decide⟩

lemma helperMap_keys (cm : ColMap) :
    (helperMapOf cm).map (fun p => p.1) = cm.map (fun p => p.1) := by
  unfold helperMapOf
  rw [List.map_map]
  rfl

lemma mergeColmap_nodup_keys {v : Bool} {mapping : List (List Entry)} {cm : ColMap}
    (hm : mergeColmap v mapping = .ok cm) : (cm.map (fun p => p.1)).Nodup := by
  rw [mergeColmap_eq_foldl_flat] at hm
  exact mergeFoldl_nodup_keys v _ [] cm hm (by simp)

lemma helperName_not_plain {c e v : String}
    (hpref : ¬(c.data.take 5 = "__H__".data)) : c ≠ helperName e v := by
  intro hc
  refine hpref ?_
  rw [hc, helperName_data]
  have h5 : (5 : Nat) = ("__H__".data).length := rfl
  rw [h5, List.take_left]

lemma renameF_eq_c_iff {cm : ColMap} {c : String}
    (hdisj : c ∉ cm.map (fun p => p.1))
    (hpref : ¬(c.data.take 5 = "__H__".data)) :
    ∀ x, ((match lookupA (helperMapOf cm) x with
           | some h => h
           | none => x) = c ↔ x = c) := by
  intro x
  cases hl : lookupA (helperMapOf cm) x with
  | none => simp
  | some h' =>
    constructor
    · intro hc
      exfalso
      have hmem : (x, h') ∈ helperMapOf cm := lookupA_some_mem hl
      unfold helperMapOf at hmem
      rcases List.mem_map.mp hmem with ⟨p, _, hpe⟩
      have hc' : h' = c := hc
      have hh : h' = helperName p.2.1 p.2.2 := (Prod.ext_iff.mp hpe.symm).2
      exact helperName_not_plain hpref (hc' ▸ hh)
    · intro hx
      exfalso
      subst hx
      have hmem : x ∈ (helperMapOf cm).map (fun p => p.1) :=
        List.mem_map.mpr ⟨(x, h'), lookupA_some_mem hl, rfl⟩
      rw [helperMap_keys] at hmem
      exact hdisj hmem

lemma idxOf?_congr {cols : List String} {f : String → String} {c : String}
    (hf : ∀ x, (f x = c ↔ x = c)) :
    idxOf? (cols.map f) c = idxOf? cols c := by
  induction cols with
  | nil => rfl
  | cons c' rest ih =>
    by_cases hc : c' = c
    · subst hc
      simp [idxOf?, (hf c').mpr rfl]
    · have hfc : ¬(f c' = c) := fun h => hc ((hf c').mp h)
      simp [idxOf?, hfc, hc, ih]

lemma cellAt_rename_pres {df : DF α} {cm : ColMap} {c : String}
    {row : List (Option α)} (hdisj : c ∉ cm.map (fun p => p.1))
    (hpref : ¬(c.data.take 5 = "__H__".data)) :
    cellAt (dfHcolsOf df cm) row c = cellAt df.cols row c := by
  unfold cellAt dfHcolsOf renameCols
  rw [idxOf?_congr (renameF_eq_c_iff hdisj hpref)]

lemma findSome?_id_of_mem {l : List (Option α)} {w : α} (h : some w ∈ l) :
    ∃ u, l.findSome? id = some u := by
  induction l with
  | nil => cases h
  | cons x rest ih =>
    cases x with
    | some a => exact ⟨a, rfl⟩
    | none =>
      rcases List.mem_cons.mp h with h1 | h1
      · cases h1
      · rcases ih h1 with ⟨u, hu⟩
        exact ⟨u, hu⟩

lemma firstVal_isSome [DecidableEq α] {filtered : List (PKey α × Option α)}
    {k : PKey α} {w : α} (h : (k, some w) ∈ filtered) :
    ∃ u, firstVal filtered k = some u := by
  unfold firstVal
  apply findSome?_id_of_mem
  refine List.mem_map.mpr ⟨(k, some w), ?_, rfl⟩
  exact List.mem_filter.mpr ⟨h, by simp⟩

lemma mem_varColsOf [LinearOrder α] {survivors : List (PKey α × α)} {v : String} :
    v ∈ varColsOf survivors ↔ v ∈ survivors.map (fun s => s.1.2.2) := by
  unfold varColsOf
  rw [(List.perm_insertionSort _ _).mem_iff, mem_dedupF]

lemma nodup_varColsOf [LinearOrder α] (survivors : List (PKey α × α)) :
    (varColsOf survivors).Nodup := by
  unfold varColsOf
  exact (List.perm_insertionSort _ _).nodup_iff.mpr (nodup_dedupF _)

/-- Claim C2 (amended): on a successful conversion whose merged mapping has
bar-free element ids, whose identifier columns are disjoint from the mapped
source columns and not named like helper columns, whose identifier cells are
all present, and where every variable name of the mapping has at least one
contributing source column with a present value, the output columns are
exactly the identifier columns, one `element` column, and one column per
distinct variable name of the merged mapping. -/
theorem claim_C2_output_column_set [LinearOrder α] (df : DF α)
    (idCols : List String) (mapping : List (List Entry)) (validate : Bool)
    (cm : ColMap) (out : LongDF α)
    (hm : mergeColmap validate mapping = .ok cm)
    (hbar : ∀ p ∈ cm, '|' ∉ (p.2.1 : String).data)
    (hdisj : ∀ c ∈ idCols, c ∉ cm.map (fun p => p.1))
    (hpref : ∀ c ∈ idCols, ¬((c : String).data.take 5 = "__H__".data))
    (hids : ∀ row ∈ df.rows, ∀ c ∈ idCols, cellAt df.cols row c ≠ none)
    (hwit : ∀ v ∈ cm.map (fun p => p.2.2), ∃ p ∈ cm, p.2.2 = v ∧
      ∃ row ∈ df.rows, cellAt df.cols row p.1 ≠ none)
    (h : convert df idCols mapping validate = .ok out) :
    out.idCols = idCols ∧ out.allCols = idCols ++ ["element"] ++ out.varCols ∧
    out.varCols.Nodup ∧ (∀ v, v ∈ out.varCols ↔ v ∈ cm.map (fun p => p.2.2)) := by
  rcases convert_ok_inv h with ⟨cm', hm', hne, rfl⟩
  rw [hm'] at hm
  cases Except.ok.inj hm
  refine ⟨rfl, rfl, nodup_varColsOf _, fun v => ⟨?_, ?_⟩⟩
  · intro hv
    rcases List.mem_map.mp (mem_varColsOf.mp hv) with ⟨s, hs, rfl⟩
    have hmapped := filtered_key_mapped hbar ((survivors_key_spec hs).1)
    rcases List.mem_map.mp hmapped with ⟨p, hp, hpe⟩
    refine List.mem_map.mpr ⟨p, hp, ?_⟩
    exact (Prod.ext_iff.mp hpe).2
  · intro hv
    rcases hwit v hv with ⟨p, hp, hpv, row, hrow, hcell⟩
    -- the source column must exist in the table
    cases hidx : idxOf? df.cols p.1 with
    | none => exact absurd (by unfold cellAt; rw [hidx]) hcell
    | some p0 =>
      rcases idxOf?_spec hidx with ⟨hp0len, hp0val⟩
      -- the renamed frame carries the helper label at the same position
      have hdfHlen : (dfHcolsOf df cm).length = df.cols.length := by
        unfold dfHcolsOf renameCols
        exact List.length_map _ _
      have hlbl : (dfHcolsOf df cm).getD p0 "" = helperName p.2.1 p.2.2 := by
        unfold dfHcolsOf renameCols
        rw [getD_map_lt hp0len "" "", hp0val]
        have hmemh : (p.1, helperName p.2.1 p.2.2) ∈ helperMapOf cm := by
          unfold helperMapOf
          exact List.mem_map.mpr ⟨p, hp, rfl⟩
        have hnd : ((helperMapOf cm).map (fun q => q.1)).Nodup := by
          rw [helperMap_keys]
          exact mergeColmap_nodup_keys hm'
        rw [lookupA_of_mem_nodup hnd hmemh]
      -- the melted row built from this position and the witness row
      have hmelt := melted_mem_of idCols (valueVarsOf cm) hrow (hdfHlen ▸ hp0len)
        (by rw [hlbl]; exact valueVars_mem_of hp)
      -- its tagged form
      have htag : ((idCols.map (fun c => cellAt (dfHcolsOf df cm) row c)),
          (p.2.1, some p.2.2), row.getD p0 none) ∈
          tagRowsOf (meltRows df (dfHcolsOf df cm) idCols (valueVarsOf cm)) := by
        rcases tagged_mem_iff.mpr ⟨_, hmelt, rfl⟩ with htag0
        rw [show split1 (stripHead ((dfHcolsOf df cm).getD p0 ""))
              = (p.2.1, some p.2.2) by rw [hlbl]; exact split1_helperName (hbar p hp)]
          at htag0
        exact htag0
      -- the identifier cells are all present
      have hallsome : ∃ ids, allSome (idCols.map
          (fun c => cellAt (dfHcolsOf df cm) row c)) = some ids := by
        refine allSome_of_no_none (fun x hx => ?_)
        rcases List.mem_map.mp hx with ⟨c, hc, rfl⟩
        rw [cellAt_rename_pres (hdisj c hc) (hpref c hc)]
        exact hids row hrow c hc
      rcases hallsome with ⟨ids, hids'⟩
      -- the group key enters the filtered rows with a present value
      have hfil := filtered_mem_of htag hids' rfl
      have hval : row.getD p0 none = cellAt df.cols row p.1 := by
        unfold cellAt
        rw [hidx]
      have hw : ∃ w, row.getD p0 none = some w := by
        rw [hval]
        cases hcw : cellAt df.cols row p.1 with
        | none => exact absurd hcw hcell
        | some w => exact ⟨w, rfl⟩
      rcases hw with ⟨w, hw⟩
      rw [hw] at hfil
      -- the group survives and contributes the variable column
      rcases firstVal_isSome hfil with ⟨u, hu⟩
      have hsurv := survivors_mem_of
        (List.mem_map.mpr ⟨_, hfil, rfl⟩) hu
      rw [← hpv]
      exact mem_varColsOf.mpr (List.mem_map.mpr ⟨_, hsurv, rfl⟩)

/-- Witness for claim C2 (amended) on a concrete conversion in which the
variable k1 is shared by two elements and one of its two source columns is
all-missing: the live contributor keeps the column. -/
theorem claim_C2_witness :
    (mergeColmap true [[("l1_k1", ("l1", "k1"))], [("l2_k1", ("l2", "k1"))]]
      = .ok [("l1_k1", ("l1", "k1")), ("l2_k1", ("l2", "k1"))])
    ∧ (∀ v ∈ ([("l1_k1", ("l1", "k1")), ("l2_k1", ("l2", "k1"))] : ColMap).map
          (fun p => p.2.2),
        ∃ p ∈ ([("l1_k1", ("l1", "k1")), ("l2_k1", ("l2", "k1"))] : ColMap),
          p.2.2 = v ∧ ∃ row ∈ (⟨["id", "l1_k1", "l2_k1"],
            [[some 1, some 5, none]]⟩ : DF Nat).rows,
            cellAt (⟨["id", "l1_k1", "l2_k1"],
              [[some 1, some 5, none]]⟩ : DF Nat).cols row p.1 ≠ none)
    ∧ ((⟨["id"], ["k1"], [([1], "l1", [some 5])]⟩ : LongDF Nat).idCols = ["id"]
      ∧ (⟨["id"], ["k1"], [([1], "l1", [some 5])]⟩ : LongDF Nat).allCols
        = ["id"] ++ ["element"]
          ++ (⟨["id"], ["k1"], [([1], "l1", [some 5])]⟩ : LongDF Nat).varCols
      ∧ (⟨["id"], ["k1"], [([1], "l1", [some 5])]⟩ : LongDF Nat).varCols.Nodup
      ∧ (∀ v, v ∈ (⟨["id"], ["k1"], [([1], "l1", [some 5])]⟩ : LongDF Nat).varCols
          ↔ v ∈ ([("l1_k1", ("l1", "k1")), ("l2_k1", ("l2", "k1"))] : ColMap).map
              (fun p => p.2.2))) :=
  ⟨by decide, by decide,
    claim_C2_output_column_set
      (⟨["id", "l1_k1", "l2_k1"], [[some 1, some 5, none]]⟩ : DF Nat) ["id"]
      [[("l1_k1", ("l1", "k1"))], [("l2_k1", ("l2", "k1"))]] true
      [("l1_k1", ("l1", "k1")), ("l2_k1", ("l2", "k1"))] _
      (by decide) (by decide) (by decide) (by decide) (by decide) (by decide)
      (by decide)⟩

/-- Counterexample to claim C2 as stated: the variable name w occurs in the
mapping, but its only source column holds a missing value, so `pivot_table`
drops the all-missing column and w is absent from the output columns. -/
theorem claim_C2_counterexample :
    (convert (⟨["id", "p", "q"], [[some 1, some 5, none]]⟩ : DF Nat) ["id"]
        [[("p", ("e", "v"))], [("q", ("e", "w"))]] true
      = .ok ⟨["id"], ["v"], [([1], "e", [some 5])]⟩)
    ∧ ("w" ∈ (([[("p", ("e", "v"))], [("q", ("e", "w"))]] : List (List Entry)).flatMap
        (fun m => m)).map (fun p => p.2.2))
    ∧ ("w" ∉ (⟨["id"], ["v"], [([1], "e", [some 5])]⟩ : LongDF Nat).varCols) := by
  refine ⟨by decide, by decide, by decide⟩

/-! Claims C5 and C10: behaviour on shared targets and absent source columns. -/

lemma firstNotIn_eq_none_of {cols : List String} : ∀ {l : List String},
    (∀ c ∈ l, c ∈ cols) → firstNotIn cols l = none := by
  intro l
  induction l with
  | nil => intro _; rfl
  | cons c rest ih =>
    intro h
    simp only [firstNotIn, if_pos (h c (List.mem_cons_self _ _))]
    exact ih (fun c' hc' => h c' (List.mem_cons_of_mem _ hc'))

lemma mem_dfHcols_inv {df : DF α} {cm : ColMap} {c : String}
    (hc : c ∈ dfHcolsOf df cm) :
    ∃ c0 ∈ df.cols,
      (match lookupA (helperMapOf cm) c0 with
       | some h => h
       | none => c0) = c := by
  unfold dfHcolsOf renameCols at hc
  exact List.mem_map.mp hc

lemma mem_dfHcols_of {df : DF α} (cm : ColMap) {c0 : String} (h0 : c0 ∈ df.cols) :
    (match lookupA (helperMapOf cm) c0 with
     | some h => h
     | none => c0) ∈ dfHcolsOf df cm := by
  unfold dfHcolsOf renameCols
  exact List.mem_map.mpr ⟨c0, h0, rfl⟩

lemma helper_mem_dfHcols {df : DF α} {cm : ColMap} {p : Entry}
    (hnd : (cm.map (fun q => q.1)).Nodup) (hp : p ∈ cm) (hin : p.1 ∈ df.cols) :
    helperName p.2.1 p.2.2 ∈ dfHcolsOf df cm := by
  have hl : lookupA (helperMapOf cm) p.1 = some (helperName p.2.1 p.2.2) := by
    refine lookupA_of_mem_nodup ?_ ?_
    · rw [helperMap_keys]
      exact hnd
    · unfold helperMapOf
      exact List.mem_map.mpr ⟨p, hp, rfl⟩
  have := mem_dfHcols_of cm hin
  rw [hl] at this
  exact this

lemma plain_mem_dfHcols {df : DF α} {cm : ColMap} {c : String}
    (hin : c ∈ df.cols) (hnk : c ∉ cm.map (fun q => q.1)) :
    c ∈ dfHcolsOf df cm := by
  have hl : lookupA (helperMapOf cm) c = none := by
    refine lookupA_eq_none_of_not_mem ?_
    rw [helperMap_keys]
    exact hnk
  have := mem_dfHcols_of cm hin
  rw [hl] at this
  exact this

/-- Claim C5 (amended): two distinct source columns mapped to the same
(element, variable) target do not make `convert` fail — under the usual
presence and hygiene conditions the conversion succeeds, and the shared cell
is filled by the `first` aggregation (first non-missing contribution) rather
than raising an error. -/
theorem claim_C5_shared_target_no_failure [LinearOrder α] (df : DF α)
    (idCols : List String) (mapping : List (List Entry)) (validate : Bool)
    (cm : ColMap) (hm : mergeColmap validate mapping = .ok cm)
    (s1 s2 : String) (t : Target)
    (hs1 : (s1, t) ∈ cm) (_hs2 : (s2, t) ∈ cm) (_hss : s1 ≠ s2)
    (hall : ∀ p ∈ cm, p.1 ∈ df.cols)
    (hidin : ∀ c ∈ idCols, c ∈ df.cols)
    (hiddisj : ∀ c ∈ idCols, c ∉ cm.map (fun p => p.1))
    (hvalue : "value" ∉ df.cols) :
    ∃ o, convert df idCols mapping validate = .ok o := by
  have hne : cm ≠ [] := List.ne_nil_of_mem hs1
  have hnd := mergeColmap_nodup_keys hm
  have hsanity : sanityChecks df idCols cm validate = .ok () := by
    unfold sanityChecks
    cases validate with
    | false => rfl
    | true =>
      rw [if_pos rfl]
      dsimp only
      have hmiss : (cm.map (fun p => p.1)).filter (fun c => decide (c ∉ df.cols)) = [] := by
        rw [List.filter_eq_nil_iff]
        intro x hx
        simp only [decide_eq_true_eq]
        rcases List.mem_map.mp hx with ⟨p, hp, rfl⟩
        exact fun hn => hn (hall p hp)
      rw [if_neg (fun hcon => hcon hmiss), firstNotIn_eq_none_of hidin]
  have hvalH : "value" ∉ dfHcolsOf df cm := by
    intro hmem
    rcases mem_dfHcols_inv hmem with ⟨c0, hc0, heq⟩
    cases hl : lookupA (helperMapOf cm) c0 with
    | some h' =>
      rw [hl] at heq
      have hmemh : (c0, h') ∈ helperMapOf cm := lookupA_some_mem hl
      unfold helperMapOf at hmemh
      rcases List.mem_map.mp hmemh with ⟨p, _, hpe⟩
      have hh : h' = helperName p.2.1 p.2.2 := (Prod.ext_iff.mp hpe.symm).2
      have heq' : h' = "value" := heq
      have hval5 : ¬(("value" : String).data.take 5 = "__H__".data) := by decide
      exact helperName_not_plain hval5 (heq'.symm.trans hh)
    | none =>
      rw [hl] at heq
      have : c0 = "value" := heq
      exact hvalue (this ▸ hc0)
  have hguard : meltGuard (dfHcolsOf df cm) idCols (valueVarsOf cm) = .ok () := by
    unfold meltGuard
    rw [if_neg hvalH]
    dsimp only
    have hmiss : (idCols ++ valueVarsOf cm).filter
        (fun c => decide (c ∉ dfHcolsOf df cm)) = [] := by
      rw [List.filter_eq_nil_iff]
      intro x hx
      simp only [decide_eq_true_eq]
      intro hn
      rcases List.mem_append.mp hx with hx | hx
      · exact hn (plain_mem_dfHcols (hidin x hx) (hiddisj x hx))
      · rcases valueVars_mem_inv hx with ⟨p, hp, rfl⟩
        exact hn (helper_mem_dfHcols hnd hp (hall p hp))
    rw [if_neg (fun hcon => hcon hmiss)]
  refine ⟨pivotFirst idCols
    (tagRowsOf (meltRows df (dfHcolsOf df cm) idCols (valueVarsOf cm))), ?_⟩
  unfold convert
  rw [hm]
  dsimp only
  rw [if_neg hne, hsanity]
  dsimp only
  rw [hguard]

/-- Witness for claim C5 (amended) at concrete inputs. -/
theorem claim_C5_witness :
    (mergeColmap true [[("s1", ("e", "v"))], [("s2", ("e", "v"))]]
      = .ok [("s1", ("e", "v")), ("s2", ("e", "v"))])
    ∧ (∃ o, convert (⟨["id", "s1", "s2"], [[some 1, some 7, some 8]]⟩ : DF Nat)
        ["id"] [[("s1", ("e", "v"))], [("s2", ("e", "v"))]] true = .ok o) :=
  ⟨by decide,
    claim_C5_shared_target_no_failure
      (⟨["id", "s1", "s2"], [[some 1, some 7, some 8]]⟩ : DF Nat) ["id"]
      [[("s1", ("e", "v"))], [("s2", ("e", "v"))]] true
      [("s1", ("e", "v")), ("s2", ("e", "v"))] (by decide)
      "s1" "s2" ("e", "v") (by decide) (by decide) (by decide)
      (by decide) (by decide) (by decide) (by decide)⟩

/-- Counterexample to claim C5 as stated: two source columns share the target
(e, v); `convert` does not raise — it succeeds and silently keeps the first
contributing value 7, discarding 8. -/
theorem claim_C5_counterexample :
    convert (⟨["id", "s1", "s2"], [[some 1, some 7, some 8]]⟩ : DF Nat) ["id"]
        [[("s1", ("e", "v"))], [("s2", ("e", "v"))]] true
      = .ok ⟨["id"], ["v"], [([1], "e", [some 7])]⟩ := by
  decide

/-- Claim C10 (amended): with validation disabled, a mapping referencing a
source column absent from the table still makes `convert` fail — provided no
other mapped source column shares the absent column target and no raw column
is named like a helper column (otherwise the helper label exists and the melt
succeeds). -/
theorem claim_C10_unvalidated_missing_source_fails [LinearOrder α] (df : DF α)
    (idCols : List String) (mapping : List (List Entry)) (cm : ColMap)
    (hm : mergeColmap false mapping = .ok cm)
    (src : String) (t : Target) (hsrc : (src, t) ∈ cm) (habs : src ∉ df.cols)
    (huniq : ∀ p ∈ cm, p.2 = t → p.1 = src)
    (hbar : ∀ p ∈ cm, '|' ∉ (p.2.1 : String).data)
    (hpref : ∀ c ∈ df.cols, ¬((c : String).data.take 5 = "__H__".data)) :
    ∃ msg, convert df idCols mapping false = .error msg := by
  have hne : cm ≠ [] := List.ne_nil_of_mem hsrc
  have hsanity : sanityChecks df idCols cm false = .ok () := rfl
  by_cases hval : "value" ∈ dfHcolsOf df cm
  · refine ⟨valueNameMsg, ?_⟩
    unfold convert
    rw [hm]
    dsimp only
    rw [if_neg hne, hsanity]
    dsimp only
    have hguard : meltGuard (dfHcolsOf df cm) idCols (valueVarsOf cm)
        = .error valueNameMsg := by
      unfold meltGuard
      rw [if_pos hval]
    rw [hguard]
  · have hmiss : helperName t.1 t.2 ∈ (idCols ++ valueVarsOf cm).filter
        (fun c => decide (c ∉ dfHcolsOf df cm)) := by
      refine List.mem_filter.mpr ⟨?_, ?_⟩
      · refine List.mem_append.mpr (Or.inr ?_)
        have := valueVars_mem_of hsrc
        exact this
      · simp only [decide_eq_true_eq]
        intro hmem
        rcases mem_dfHcols_inv hmem with ⟨c0, hc0, heq⟩
        cases hl : lookupA (helperMapOf cm) c0 with
        | some h' =>
          rw [hl] at heq
          have hmemh : (c0, h') ∈ helperMapOf cm := lookupA_some_mem hl
          unfold helperMapOf at hmemh
          rcases List.mem_map.mp hmemh with ⟨p, hp, hpe⟩
          have hc0p : c0 = p.1 := (Prod.ext_iff.mp hpe.symm).1
          have hh : h' = helperName p.2.1 p.2.2 := (Prod.ext_iff.mp hpe.symm).2
          have heq' : h' = helperName t.1 t.2 := heq
          have hhe : helperName p.2.1 p.2.2 = helperName t.1 t.2 := hh.symm.trans heq'
          rcases helperName_inj (hbar p hp) (hbar (src, t) hsrc) hhe with ⟨he, hv⟩
          have hpt : p.2 = t := Prod.ext he hv
          have hp1 : p.1 = src := huniq p hp hpt
          exact habs (hp1 ▸ hc0p ▸ hc0)
        | none =>
          rw [hl] at heq
          have heq' : c0 = helperName t.1 t.2 := heq
          exact helperName_not_plain (hpref c0 hc0) heq'
    have hne' : (idCols ++ valueVarsOf cm).filter
        (fun c => decide (c ∉ dfHcolsOf df cm)) ≠ [] := List.ne_nil_of_mem hmiss
    refine ⟨meltMissingMsg (dedupF ((idCols ++ valueVarsOf cm).filter
        (fun c => decide (c ∉ dfHcolsOf df cm)))), ?_⟩
    unfold convert
    rw [hm]
    dsimp only
    rw [if_neg hne, hsanity]
    dsimp only
    have hguard : meltGuard (dfHcolsOf df cm) idCols (valueVarsOf cm)
        = .error (meltMissingMsg (dedupF ((idCols ++ valueVarsOf cm).filter
            (fun c => decide (c ∉ dfHcolsOf df cm))))) := by
      unfold meltGuard
      rw [if_neg hval]
      dsimp only
      rw [if_pos hne']
    rw [hguard]

/-- Witness for claim C10 (amended) at concrete inputs. -/
theorem claim_C10_witness :
    (mergeColmap false [[("gone", ("e", "v"))]] = .ok [("gone", ("e", "v"))])
    ∧ (∃ msg, convert (⟨["id", "s"], [[some 1, some 7]]⟩ : DF Nat) ["id"]
        [[("gone", ("e", "v"))]] false = .error msg) :=
  ⟨by decide,
    claim_C10_unvalidated_missing_source_fails
      (⟨["id", "s"], [[some 1, some 7]]⟩ : DF Nat) ["id"]
      [[("gone", ("e", "v"))]] [("gone", ("e", "v"))] (by decide)
      "gone" ("e", "v") (by decide) (by decide) (by decide) (by decide)
      (by decide)⟩

/-- Counterexample to claim C10 as stated: the absent source column gone
shares its target (e, v) with the present column s2, so the helper label
exists in the renamed frame, the melt finds all its value columns, and
`convert` returns a table instead of failing. -/
theorem claim_C10_counterexample :
    convert (⟨["id", "s2"], [[some 1, some 8]]⟩ : DF Nat) ["id"]
        [[("gone", ("e", "v"))], [("s2", ("e", "v"))]] false
      = .ok ⟨["id"], ["v"], [([1], "e", [some 8])]⟩ := by
  decide


/-- Claim C8: `load_mapping` dispatches on the lowercased file extension —
`.csv` always takes the tabular path, `.json` tries the block-style shape
first and the key-value shape second and fails with the format error when
neither matches, and any other extension fails immediately with the same
error whatever the contents are. -/
theorem claim_C8_load_mapping_dispatch (suffix : String) :
    (∀ csv j, lowerExt suffix = ".csv" →
      loadMapping suffix csv j = parseCsvMapping csv)
    ∧ (∀ csv j, lowerExt suffix = ".json" → isBlockStyleNamed j = true →
        loadMapping suffix csv j = .ok (parseBlock j))
    ∧ (∀ csv j, lowerExt suffix = ".json" → isBlockStyleNamed j = false →
        isKeyValueStyle j = true → loadMapping suffix csv j = parseKV j)
    ∧ (∀ csv j, lowerExt suffix = ".json" → isBlockStyleNamed j = false →
        isKeyValueStyle j = false → loadMapping suffix csv j = .error jsonFormatMsg)
    ∧ (lowerExt suffix ≠ ".csv" → lowerExt suffix ≠ ".json" →
        ∀ csv csv' j j', loadMapping suffix csv j = .error extMsg ∧
          loadMapping suffix csv j = loadMapping suffix csv' j') := by
  refine ⟨?_, ?_, ?_, ?_, ?_⟩
  · intro csv j hcsv
    unfold loadMapping
    rw [if_pos hcsv]
  · intro csv j hjson hblock
    unfold loadMapping
    rw [if_neg (by rw [hjson]; decide), if_pos hjson, if_pos hblock]
  · intro csv j hjson hblock hkv
    unfold loadMapping
    rw [if_neg (by rw [hjson]; decide), if_pos hjson,
      if_neg (by rw [hblock]; decide), if_pos hkv]
  · intro csv j hjson hblock hkv
    unfold loadMapping
    rw [if_neg (by rw [hjson]; decide), if_pos hjson,
      if_neg (by rw [hblock]; decide), if_neg (by rw [hkv]; decide)]
  · intro hcsv hjson csv csv' j j'
    unfold loadMapping
    simp only [if_neg hcsv, if_neg hjson]
    trivial

/-- Witness for claim C8, exercising each dispatch branch on concrete inputs. -/
theorem claim_C8_witness :
    (loadMapping ".csv"
        ⟨["source_col", "element_id", "variable_col"], [["pre_i1", "i1", "pre"]]⟩
        Json.null
      = parseCsvMapping
        ⟨["source_col", "element_id", "variable_col"], [["pre_i1", "i1", "pre"]]⟩)
    ∧ (loadMapping ".json" ⟨[], []⟩
        (Json.obj [("block_a", Json.arr [Json.obj
          [("source_col", Json.str "pre_i1"), ("element_id", Json.str "i1"),
           ("variable_col", Json.str "pre")]])])
      = .ok (parseBlock (Json.obj [("block_a", Json.arr [Json.obj
          [("source_col", Json.str "pre_i1"), ("element_id", Json.str "i1"),
           ("variable_col", Json.str "pre")]])])))
    ∧ (loadMapping ".json" ⟨[], []⟩
        (Json.obj [("pre_i1", Json.arr [Json.str "i1", Json.str "pre"])])
      = parseKV (Json.obj [("pre_i1", Json.arr [Json.str "i1", Json.str "pre"])]))
    ∧ (loadMapping ".json" ⟨[], []⟩ (Json.obj [("x", Json.str "y")])
      = .error jsonFormatMsg)
    ∧ (loadMapping ".txt" ⟨[], []⟩ Json.null = .error extMsg ∧
        loadMapping ".txt" ⟨[], []⟩ Json.null
          = loadMapping ".txt" ⟨["h"], [["q"]]⟩ (Json.str "zzz")) :=
  ⟨(claim_C8_load_mapping_dispatch ".csv").1 _ _ (by decide),
    (claim_C8_load_mapping_dispatch ".json").2.1 _ _ (by decide) (by decide),
    (claim_C8_load_mapping_dispatch ".json").2.2.1 _ _ (by decide) (by decide)
      (by decide),
    (claim_C8_load_mapping_dispatch ".json").2.2.2.1 _ _ (by decide) (by decide)
      (by decide),
    (claim_C8_load_mapping_dispatch ".txt").2.2.2.2 (by decide) (by decide)
      _ _ _ _⟩

end Wide2Long
